import Mathlib

/-!
# Reference-counted `smart_ptr` of `src/02_smart_ptr.cpp`

A shallow embedding of the classes `shared_count` and `smart_ptr<T>` and of the
four pointer-cast functions.

* Addresses are natural numbers; `0` is `nullptr`.  Element types are erased:
  a `smart_ptr<T>` and a `smart_ptr<U>` are the same record of two addresses.
* The C++ `long` counter is an `Int`.  The methods of `shared_count` are given on
  the machine type, with signed overflow (undefined behaviour) as the error branch
  (`add_count_long`, `reduce_count_long`), and as the arithmetic they perform within
  the range of `long` (`add_count`, `reduce_count`).  The handles use the latter: an
  overflow through handles would need `2^63` simultaneously live handles.
* The member `shared_count_` is left unassigned by several constructors; an
  unassigned member is `none`, an assigned one is `some k` (the address `k`
  may be stale, i.e. the counter at `k` may have been deleted since).
* Values and counters are kept in two maps of the heap (two address spaces).
* Heap accesses through a pointer are partial: using an unassigned member or a
  counter that is not live gives `none` (undefined behaviour in C++).
* `std::cout` output of the destructor is not modelled.
* A program state (`Sys`) is the list of the handle objects created so far together with the
  heap; an operation that would be undefined behaviour yields `none`.
* The constructors of lines 147-169 are `explicit` templates, so the class declares no copy
  constructor and the compiler declares one implicitly: a member-wise copy that calls no
  `add_count`. It runs where overload resolution selects it: in `smart_ptr<T> x(y)` with `y` of
  the same handle type, and in the copy-initialisation of the by-value parameter of `operator=`
  (`x = y` and `x = std::move(y)`), for which explicit constructors are not candidates. The
  template of lines 147-156 runs for a source of another handle type, the template of lines
  160-169 for `smart_ptr<T> x(std::move(y))`.
* The by-value parameter of `operator=` is an object of its own: it is constructed, the body
  runs, and it is destroyed.
-/

namespace Cpp

/-! ## `shared_count` (source lines 84-111) -/

/-- The class `shared_count`: one private member `long count_`. -/
structure shared_count where
  count_ : Int
deriving DecidableEq

namespace shared_count

/-- The constructor `shared_count() : count_(1)`. -/
def ctor : shared_count := ⟨1⟩

/-- The method `add_count`: `++count_`, as long as the result is a `long` (see `add_count_long`);
the counts reached through handles are bounded by the number of live handles. -/
def add_count (c : shared_count) : shared_count := ⟨c.count_ + 1⟩

/-- The method `reduce_count`: `return --count_`, as long as the result is a `long` (see
`reduce_count_long`); the returned value and the updated object. -/
def reduce_count (c : shared_count) : Int × shared_count := (c.count_ - 1, ⟨c.count_ - 1⟩)

/-- The method `get_count`: `return count_`. -/
def get_count (c : shared_count) : Int := c.count_

end shared_count

/-- The largest value of the C++ type `long` (64 bits). -/
def LONG_MAX : Int := 9223372036854775807

/-- The smallest value of the C++ type `long` (64 bits). -/
def LONG_MIN : Int := -9223372036854775808

namespace shared_count

/-- The member `count_` holds a value of the type `long`. -/
def in_range (c : shared_count) : Prop := LONG_MIN ≤ c.count_ ∧ c.count_ ≤ LONG_MAX

/-- The method `add_count` on the machine type: `++count_` overflows at `LONG_MAX`, which is
undefined behaviour (`none`); below it the result is that of `add_count`. -/
def add_count_long (c : shared_count) : Option shared_count :=
  if c.count_ < LONG_MAX then some c.add_count else none

/-- The method `reduce_count` on the machine type: `--count_` overflows at `LONG_MIN`, which is
undefined behaviour (`none`); above it the result is that of `reduce_count`. -/
def reduce_count_long (c : shared_count) : Option (Int × shared_count) :=
  if LONG_MIN < c.count_ then some c.reduce_count else none

end shared_count

/-! ## The heap -/

/-- The part of the free store the handles act on. -/
structure Heap where
  /-- the live `shared_count` objects, by address -/
  counts : Nat → Option shared_count
  /-- the managed values that are currently allocated -/
  alive : Nat → Bool
  /-- the addresses given to `delete ptr_`, oldest first -/
  released : List Nat
  /-- the addresses given to `delete shared_count_`, oldest first -/
  freed : List Nat

namespace Heap

/-- The empty free store. -/
def empty : Heap := ⟨fun _ => none, fun _ => false, [], []⟩

/-- The expression `new shared_count()`, the allocator answering with address `k`:
an allocator only hands out a non-null address that holds no live object. -/
def new_shared_count (m : Heap) (k : Nat) : Option Heap :=
  if k ≠ 0 ∧ m.counts k = none then
    some { m with counts := Function.update m.counts k (some shared_count.ctor) }
  else none

/-- The caller's `new T`, the allocator answering with address `p`. -/
def new_value (m : Heap) (p : Nat) : Heap :=
  { m with alive := Function.update m.alive p true }

/-- The statement `delete ptr_`. -/
def delete_value (m : Heap) (p : Nat) : Heap :=
  { m with alive := Function.update m.alive p false, released := m.released ++ [p] }

/-- The statement `delete shared_count_`. -/
def delete_count (m : Heap) (k : Nat) : Heap :=
  { m with counts := Function.update m.counts k none, freed := m.freed ++ [k] }

/-- Overwrite the live counter at `k`. -/
def store (m : Heap) (k : Nat) (c : shared_count) : Heap :=
  { m with counts := Function.update m.counts k (some c) }

end Heap

/-! ## `smart_ptr<T>` (source lines 114-234) -/

/-- The class `smart_ptr<T>`: members `T* ptr_` and `shared_count* shared_count_`. -/
structure smart_ptr where
  ptr_ : Nat
  shared_count_ : Option Nat
deriving DecidableEq

namespace smart_ptr

/-- The access `shared_count_->` of a handle: the address and the live counter there. -/
def counter (m : Heap) (h : smart_ptr) : Option (Nat × shared_count) :=
  match h.shared_count_ with
  | none => none
  | some k =>
    match m.counts k with
    | none => none
    | some c => some (k, c)

/-- The constructor `explicit smart_ptr(T* ptr = nullptr)` (lines 124-130);
`k` is the address the allocator returns if `new shared_count()` is reached. -/
def ctor (m : Heap) (ptr : Nat) (k : Nat) : Option (smart_ptr × Heap) :=
  if ptr ≠ 0 then
    match m.new_shared_count k with
    | none => none
    | some m' => some (⟨ptr, some k⟩, m')
  else some (⟨ptr, none⟩, m)

/-- The destructor `~smart_ptr()` (lines 134-142). -/
def dtor (m : Heap) (self : smart_ptr) : Option Heap :=
  if self.ptr_ ≠ 0 then
    match self.counter m with
    | none => none
    | some (k, c) =>
      let r := c.reduce_count
      let m1 := m.store k r.2
      if r.1 = 0 then some ((m1.delete_value self.ptr_).delete_count k)
      else some m1
  else some m

/-- The constructor `smart_ptr(const smart_ptr<U>& other)` (lines 147-156). -/
def ctor_copy (m : Heap) (other : smart_ptr) : Option (smart_ptr × Heap) :=
  if other.ptr_ ≠ 0 then
    match other.counter m with
    | none => none
    | some (k, c) => some (⟨other.ptr_, other.shared_count_⟩, m.store k c.add_count)
  else some (⟨other.ptr_, none⟩, m)

/-- The implicitly declared copy constructor `smart_ptr(const smart_ptr&)`: the class declares
no copy constructor of its own (the constructors of lines 147-169 are templates), so the compiler
defines the member-wise copy of `ptr_` and `shared_count_` (lines 232-233); no `add_count`. -/
def copy_implicit (other : smart_ptr) : smart_ptr := ⟨other.ptr_, other.shared_count_⟩

/-- The constructor `smart_ptr(smart_ptr<U>&& other)` (lines 160-169): the new handle
and the source as it is left. -/
def ctor_move (other : smart_ptr) : smart_ptr × smart_ptr :=
  if other.ptr_ ≠ 0 then (⟨other.ptr_, other.shared_count_⟩, { other with ptr_ := 0 })
  else (⟨other.ptr_, none⟩, other)

/-- The constructor `smart_ptr(const smart_ptr<U>& other, T* ptr)` (lines 171-180). -/
def ctor_alias (m : Heap) (other : smart_ptr) (ptr : Nat) : Option (smart_ptr × Heap) :=
  if ptr ≠ 0 then
    match other.counter m with
    | none => none
    | some (k, c) => some (⟨ptr, other.shared_count_⟩, m.store k c.add_count)
  else some (⟨ptr, none⟩, m)

/-- The method `get` (lines 189-192). -/
def get (self : smart_ptr) : Nat := self.ptr_

/-- The method `use_count` (lines 194-204). -/
def use_count (m : Heap) (self : smart_ptr) : Option Int :=
  if self.ptr_ ≠ 0 then
    match self.counter m with
    | none => none
    | some (_, c) => some c.get_count
  else some 0

/-- The method `swap` (lines 206-210): `self` and `rhs` as they are left. -/
def swap (self rhs : smart_ptr) : smart_ptr × smart_ptr :=
  (⟨rhs.ptr_, rhs.shared_count_⟩, ⟨self.ptr_, self.shared_count_⟩)

/-- The body of `operator=(smart_ptr rhs)` (lines 183-187), `rhs.swap(*this)`:
`*this` and the parameter `rhs` as they are left. The construction and the destruction of the
by-value parameter are part of the call, see `Sys.copy_assign` and `Sys.move_assign`. -/
def assign (self rhs : smart_ptr) : smart_ptr × smart_ptr :=
  let r := rhs.swap self
  (r.2, r.1)

/-- The conversion `explicit operator bool()` (lines 225-229). -/
def operator_bool (self : smart_ptr) : Bool := self.ptr_ ≠ 0

end smart_ptr

/-- The free function `swap(lhs, rhs)` (lines 236-240). -/
def swap (lhs rhs : smart_ptr) : smart_ptr × smart_ptr := lhs.swap rhs

/-! ## The pointer casts (source lines 243-269) -/

/-- Modelled from the spec: the built-in conversion `static_cast<T*>` is not code of the
repository; "the address value itself is unchanged by the conversion; only its static type
changes". -/
def static_cast (p : Nat) : Nat := p

/-- Modelled from the spec: the built-in `dynamic_cast<T*>`, with `ok` the outcome of the run-time
type check; it "produces a null address if the check fails", else the address is unchanged. -/
def dynamic_cast (ok : Bool) (p : Nat) : Nat := if ok then p else 0

/-- Modelled from the spec: the built-in `reinterpret_cast<T*>`, the address unchanged. -/
def reinterpret_cast (p : Nat) : Nat := p

/-- Modelled from the spec: the built-in `const_cast<T*>`, the address unchanged. -/
def const_cast (p : Nat) : Nat := p

/-- The function `static_pointer_cast` (lines 243-248). -/
def static_pointer_cast (m : Heap) (other : smart_ptr) : Option (smart_ptr × Heap) :=
  smart_ptr.ctor_alias m other (static_cast other.get)

/-- The function `dynamic_pointer_cast` (lines 250-255). -/
def dynamic_pointer_cast (ok : Bool) (m : Heap) (other : smart_ptr) : Option (smart_ptr × Heap) :=
  smart_ptr.ctor_alias m other (dynamic_cast ok other.get)

/-- The function `reinterpret_pointer_cast` (lines 257-262). -/
def reinterpret_pointer_cast (m : Heap) (other : smart_ptr) : Option (smart_ptr × Heap) :=
  smart_ptr.ctor_alias m other (reinterpret_cast other.get)

/-- The function `const_pointer_cast` (lines 264-269). -/
def const_pointer_cast (m : Heap) (other : smart_ptr) : Option (smart_ptr × Heap) :=
  smart_ptr.ctor_alias m other (const_cast other.get)

/-! ## Programs: handle objects and their lifetimes -/

/-- A program state: the handle objects created so far (slot `i` is `none` once the lifetime of
object `i` has ended) and the heap. -/
structure Sys where
  handles : List (Option smart_ptr)
  heap : Heap

namespace Sys

/-- The state before any object exists. -/
def empty : Sys := ⟨[], Heap.empty⟩

/-- The live handle object in slot `i`. -/
def handle (s : Sys) (i : Nat) : Option smart_ptr :=
  match s.handles[i]? with
  | some (some h) => some h
  | _ => none

/-- The declaration `smart_ptr<T> x(p)`, with `p` the result of a `new T` when it is non-null. -/
def construct (s : Sys) (p k : Nat) : Option Sys :=
  match smart_ptr.ctor (if p ≠ 0 then s.heap.new_value p else s.heap) p k with
  | none => none
  | some (h, m) => some ⟨s.handles ++ [some h], m⟩

/-- The declaration `smart_ptr<T> x(y)` for the object `y` in slot `i`, of the SAME handle type
`smart_ptr<T>`: overload resolution selects the implicitly declared copy constructor (a
non-template is preferred to the template of lines 147-156). -/
def copy_same (s : Sys) (i : Nat) : Option Sys :=
  match s.handle i with
  | none => none
  | some other => some ⟨s.handles ++ [some other.copy_implicit], s.heap⟩

/-- The declaration `smart_ptr<T> x(y)` for the object `y` in slot `i`, of ANOTHER handle type
`smart_ptr<U>`: a call of the template constructor of lines 147-156. -/
def copy (s : Sys) (i : Nat) : Option Sys :=
  match s.handle i with
  | none => none
  | some other =>
    match smart_ptr.ctor_copy s.heap other with
    | none => none
    | some (h, m) => some ⟨s.handles ++ [some h], m⟩

/-- The declaration `smart_ptr<T> x(std::move(y))` for the object `y` in slot `i`. -/
def move (s : Sys) (i : Nat) : Option Sys :=
  match s.handle i with
  | none => none
  | some other =>
    let r := smart_ptr.ctor_move other
    some ⟨s.handles.set i (some r.2) ++ [some r.1], s.heap⟩

/-- The declaration `smart_ptr<T> x(y, ptr)` for the object `y` in slot `i`. -/
def copy_with (s : Sys) (i ptr : Nat) : Option Sys :=
  match s.handle i with
  | none => none
  | some other =>
    match smart_ptr.ctor_alias s.heap other ptr with
    | none => none
    | some (h, m) => some ⟨s.handles ++ [some h], m⟩

/-- A new object initialised with the result of a cast function applied to the object in
slot `i`. -/
def cast (f : Heap → smart_ptr → Option (smart_ptr × Heap)) (s : Sys) (i : Nat) : Option Sys :=
  match s.handle i with
  | none => none
  | some other =>
    match f s.heap other with
    | none => none
    | some (h, m) => some ⟨s.handles ++ [some h], m⟩

/-- The call `x.swap(y)` for the objects in slots `i` and `j`. -/
def swap (s : Sys) (i j : Nat) : Option Sys :=
  match s.handle i, s.handle j with
  | some a, some b =>
    let r := a.swap b
    some ⟨(s.handles.set i (some r.1)).set j (some r.2), s.heap⟩
  | _, _ => none

/-- The call of the free function `swap(x, y)` for the objects in slots `i` and `j`. -/
def swap_free (s : Sys) (i j : Nat) : Option Sys :=
  match s.handle i, s.handle j with
  | some a, some b =>
    let r := Cpp.swap a b
    some ⟨(s.handles.set i (some r.1)).set j (some r.2), s.heap⟩
  | _, _ => none

/-- The body of `operator=` run on the object in slot `i` with its parameter object in
slot `r`. -/
def assign_body (s : Sys) (i r : Nat) : Option Sys :=
  match s.handle i, s.handle r with
  | some a, some rhs =>
    let q := a.assign rhs
    some ⟨(s.handles.set r (some q.2)).set i (some q.1), s.heap⟩
  | _, _ => none

/-- The end of the lifetime of the object in slot `i`: its destructor runs. -/
def destroy (s : Sys) (i : Nat) : Option Sys :=
  match s.handle i with
  | none => none
  | some h =>
    match smart_ptr.dtor s.heap h with
    | none => none
    | some m => some ⟨s.handles.set i none, m⟩

/-- The statement `x = y` for the objects in slots `i` and `j`: the by-value parameter `rhs` is a
new object (slot `s.handles.length`), copy-initialised from `y` by the implicitly declared copy
constructor (the explicit templates are not candidates); the body runs, and the parameter is
destroyed. -/
def copy_assign (s : Sys) (i j : Nat) : Option Sys :=
  (s.copy_same j).bind fun s1 =>
  (s1.assign_body i s.handles.length).bind fun s2 =>
  s2.destroy s.handles.length

/-- The statement `x = std::move(y)` for the objects in slots `i` and `j`: the by-value parameter
is copy-initialised from the rvalue, again by the implicitly declared copy constructor (the
explicit template of lines 160-169 is not a candidate, and no move constructor is declared);
`y` is left as it was. -/
def move_assign (s : Sys) (i j : Nat) : Option Sys :=
  (s.copy_same j).bind fun s1 =>
  (s1.assign_body i s.handles.length).bind fun s2 =>
  s2.destroy s.handles.length

end Sys

/-- The operations a program performs on handle objects. -/
inductive Op where
  | construct (p k : Nat)
  | copy (i : Nat)
  | copy_same (i : Nat)
  | move (i : Nat)
  | copy_with (i ptr : Nat)
  | static_pointer_cast (i : Nat)
  | dynamic_pointer_cast (ok : Bool) (i : Nat)
  | reinterpret_pointer_cast (i : Nat)
  | const_pointer_cast (i : Nat)
  | swap (i j : Nat)
  | swap_free (i j : Nat)
  | copy_assign (i j : Nat)
  | move_assign (i j : Nat)
  | destroy (i : Nat)
deriving DecidableEq

namespace Sys

/-- One operation. -/
def apply (s : Sys) : Op → Option Sys
  | .construct p k => s.construct p k
  | .copy i => s.copy i
  | .copy_same i => s.copy_same i
  | .move i => s.move i
  | .copy_with i ptr => s.copy_with i ptr
  | .static_pointer_cast i => s.cast static_pointer_cast i
  | .dynamic_pointer_cast ok i => s.cast (dynamic_pointer_cast ok) i
  | .reinterpret_pointer_cast i => s.cast reinterpret_pointer_cast i
  | .const_pointer_cast i => s.cast const_pointer_cast i
  | .swap i j => s.swap i j
  | .swap_free i j => s.swap_free i j
  | .copy_assign i j => s.copy_assign i j
  | .move_assign i j => s.move_assign i j
  | .destroy i => s.destroy i

/-- A sequence of operations, left to right. -/
def run (s : Sys) : List Op → Option Sys
  | [] => some s
  | op :: ops => (s.apply op).bind fun s1 => s1.run ops

/-- The result of `use_count()` on the object in slot `i`. -/
def use_count (s : Sys) (i : Nat) : Option Int :=
  (s.handle i).bind fun h => h.use_count s.heap

/-- The result of `get()` on the object in slot `i`. -/
def get (s : Sys) (i : Nat) : Option Nat :=
  (s.handle i).map fun h => h.get

end Sys

/-- Whether a slot holds a live handle with a non-null `ptr_` whose `shared_count_` is `k`. -/
def owns (k : Nat) : Option smart_ptr → Bool
  | some h => decide (h.ptr_ ≠ 0) && decide (h.shared_count_ = some k)
  | none => false

/-- The number of live handles with a non-null `ptr_` that reference the counter at `k`. -/
def Sys.owners (s : Sys) (k : Nat) : Nat := s.handles.countP (owns k)

/-- The caller discipline of construction from a raw address: a non-null address given to
`smart_ptr(T*)` is fresh, the address of a value that is not allocated at that moment. -/
def Op.fresh (s : Sys) : Op → Prop
  | .construct p _ => p ≠ 0 → s.heap.alive p = false
  | _ => True

/-- The caller discipline of the constructor with a replacement address: the address given is a
converted address of the source, that is the source's own address or null. -/
def Op.converted (s : Sys) : Op → Prop
  | .copy_with i ptr => ptr = 0 ∨ ∃ h, s.handle i = some h ∧ ptr = h.ptr_
  | _ => True

/-- The operations that run only constructors written in the source: all but the same-type copy
construction and the two assignments, which run the implicitly declared copy constructor. -/
def Op.written : Op → Prop
  | .copy_same _ => False
  | .copy_assign _ _ => False
  | .move_assign _ _ => False
  | _ => True

/-- Fresh raw addresses, and only constructors written in the source. -/
def Op.fresh_written (s : Sys) (op : Op) : Prop := Op.fresh s op ∧ Op.written op

/-- Every live counter has a count of at least 1. -/
def Heap.positive (m : Heap) : Prop := ∀ k c, m.counts k = some c → 1 ≤ c.count_

/-- The states reachable from the empty system by operations that are defined (no undefined
behaviour) and follow the discipline `D`. -/
inductive Reachable (D : Sys → Op → Prop) : Sys → Prop where
  | init : Reachable D Sys.empty
  | step {s s1 : Sys} (op : Op) : Reachable D s → D s op → s.apply op = some s1 → Reachable D s1

/-- The invariant of the reference counting: every live counter holds the number of its
owners, which is positive, and every non-empty live handle references a live counter. -/
structure Inv (s : Sys) : Prop where
  count_eq : ∀ k c, s.heap.counts k = some c → c.count_ = (s.owners k : Int)
  live : ∀ h, some h ∈ s.handles → h.ptr_ ≠ 0 →
    ∃ k c, h.shared_count_ = some k ∧ s.heap.counts k = some c
  pos : ∀ k c, s.heap.counts k = some c → 1 ≤ c.count_

/-- An example state: one value at address 1, with its counter at address 11, owned by the two
handles in slots 0 and 1. -/
def two_owners : Sys := (Sys.empty.run [.construct 1 11, .copy 0]).getD Sys.empty

/-- An example state: the value at address 1 (counter at 11) owned by the handles in slots 0
and 1, the value at address 2 (counter at 12) owned by the handle in slot 2. -/
def three_handles : Sys :=
  (Sys.empty.run [.construct 1 11, .copy 0, .construct 2 12]).getD Sys.empty

/-- An example state: one value at address 1 (counter at 11) owned by the handle in slot 0. -/
def one_owner : Sys := (Sys.empty.run [.construct 1 11]).getD Sys.empty

/-- The handles in the slots `L` are exactly the co-owners of the value `V` through the counter
at `k`, and the value is alive. -/
structure Group (s : Sys) (V k : Nat) (L : List Nat) : Prop where
  nodup : L.Nodup
  handle : ∀ x ∈ L, s.handle x = some ⟨V, some k⟩
  count : s.heap.counts k = some ⟨(L.length : Int)⟩
  alive : s.heap.alive V = true

/-- Both caller disciplines, fresh raw addresses and converted replacement addresses, and only
constructors written in the source. -/
def Op.disciplined (s : Sys) (op : Op) : Prop :=
  Op.fresh s op ∧ Op.converted s op ∧ Op.written op

/-- The invariant of the values: the value of every non-empty live handle is alive, and two
non-empty live handles hold the same address exactly if they reference the same counter. -/
structure VInv (s : Sys) : Prop where
  val_alive : ∀ h, some h ∈ s.handles → h.ptr_ ≠ 0 → s.heap.alive h.ptr_ = true
  same : ∀ h1 h2, some h1 ∈ s.handles → some h2 ∈ s.handles → h1.ptr_ ≠ 0 → h2.ptr_ ≠ 0 →
    (h1.ptr_ = h2.ptr_ ↔ h1.shared_count_ = h2.shared_count_)

/-- An example state: after `x0(p1)`, `x1(p2)` and `x2(x0, p2)`, the handle `x1` is destroyed. -/
def dangling_state : Sys :=
  (Sys.empty.run [.construct 1 11, .construct 2 12, .copy_with 0 2, .destroy 1]).getD Sys.empty

/-- An example state: the handle in slot 0 was constructed from the value at address 1 (counter
at 11) and then moved from; the handle in slot 1 is the owner. -/
def moved_from : Sys := (Sys.empty.run [.construct 1 11, .move 0]).getD Sys.empty

/-- An example state: after `smart_ptr<T> a(p); a = a;` with the value at address 1 (counter
at 11). -/
def self_assigned : Sys := (Sys.empty.run [.construct 1 11, .copy_assign 0 0]).getD Sys.empty

theorem Sys.handle_eq_some {s : Sys} {i : Nat} {h : smart_ptr} :
    s.handle i = some h ↔ s.handles[i]? = some (some h) := by
  unfold Sys.handle
  split
  · next x heq => simp [heq]
  · next hne =>
    constructor
    · intro h0; cases h0
    · intro h1; exact absurd h1 (hne h)

theorem Sys.handle_lt {s : Sys} {i : Nat} {h : smart_ptr} (hi : s.handle i = some h) :
    i < s.handles.length := by
  rw [Sys.handle_eq_some] at hi
  exact (List.getElem?_eq_some.1 hi).1

theorem Sys.handle_mem {s : Sys} {i : Nat} {h : smart_ptr} (hi : s.handle i = some h) :
    some h ∈ s.handles := by
  rw [Sys.handle_eq_some] at hi
  exact List.getElem?_mem hi

/-- Counting after one slot is overwritten. -/
theorem countP_set_add {α : Type} (p : α → Bool) (l : List α) (i : Nat) (x y : α)
    (h : l[i]? = some y) :
    (l.set i x).countP p + (p y).toNat = l.countP p + (p x).toNat := by
  obtain ⟨hi, rfl⟩ := List.getElem?_eq_some.1 h
  have h1 := List.countP_set p l i x hi
  have h2 : (if p l[i] = true then 1 else 0) ≤ l.countP p := List.boole_getElem_le_countP p l i hi
  have e1 : (if p l[i] = true then 1 else 0) = (p l[i]).toNat := by cases p l[i] <;> rfl
  have e2 : (if p x = true then 1 else 0) = (p x).toNat := by cases p x <;> rfl
  rw [e1] at h1 h2
  rw [e2] at h1
  omega

theorem countP_push {α : Type} (p : α → Bool) (l : List α) (x : α) :
    (l ++ [x]).countP p = l.countP p + (p x).toNat := by
  rw [List.countP_append]
  cases hx : p x <;> simp [List.countP_cons, hx]

/-! ## The ownership invariant -/

theorem owns_some (k : Nat) (h : smart_ptr) :
    owns k (some h) = true ↔ h.ptr_ ≠ 0 ∧ h.shared_count_ = some k := by
  simp [owns]

theorem owns_null (k : Nat) (h : smart_ptr) (h0 : h.ptr_ = 0) : owns k (some h) = false := by
  simp [owns, h0]

theorem owns_none (k : Nat) : owns k none = false := rfl

theorem owns_mk (k p : Nat) (q : Option Nat) :
    owns k (some ⟨p, q⟩) = (decide (p ≠ 0) && decide (q = some k)) := rfl

theorem Inv.empty : Inv Sys.empty :=
  ⟨fun k c h => by simp [Sys.empty, Heap.empty] at h,
   fun h hm => by simp [Sys.empty] at hm,
   fun k c h => by simp [Sys.empty, Heap.empty] at h⟩

/-- The invariant reads the handles only through the owner counts and the counters referenced by
non-empty handles. -/
theorem Inv.handles_congr {l l1 : List (Option smart_ptr)} {m : Heap} (hI : Inv ⟨l, m⟩)
    (hc : ∀ k, l1.countP (owns k) = l.countP (owns k))
    (hl : ∀ h, some h ∈ l1 → h.ptr_ ≠ 0 →
      ∃ h0, some h0 ∈ l ∧ h0.ptr_ ≠ 0 ∧ h0.shared_count_ = h.shared_count_) : Inv ⟨l1, m⟩ :=
  ⟨fun k c h => by
     have := hI.count_eq k c h
     simpa [Sys.owners, hc k] using this,
   fun h hm hp => by
     obtain ⟨h0, hm0, hp0, he⟩ := hl h hm hp
     obtain ⟨k, c, h1, h2⟩ := hI.live h0 hm0 hp0
     exact ⟨k, c, by rw [← he]; exact h1, h2⟩,
   hI.pos⟩

theorem Inv.push_null {l : List (Option smart_ptr)} {m : Heap} (hI : Inv ⟨l, m⟩)
    (x : Option smart_ptr) (hx : ∀ h, x = some h → h.ptr_ = 0) : Inv ⟨l ++ [x], m⟩ := by
  refine hI.handles_congr (fun k => ?_) (fun h hm hp => ?_)
  · rw [countP_push]
    cases x with
    | none => simp [owns_none]
    | some h => simp [owns_null k h (hx h rfl)]
  · rcases List.mem_append.1 hm with h1 | h1
    · exact ⟨h, h1, hp, rfl⟩
    · simp at h1
      exact absurd (hx h h1.symm) hp

theorem Inv.push_share {l : List (Option smart_ptr)} {m : Heap} (hI : Inv ⟨l, m⟩)
    {k p : Nat} {c : shared_count} (hk : m.counts k = some c) (hp : p ≠ 0) :
    Inv ⟨l ++ [some ⟨p, some k⟩], m.store k c.add_count⟩ := by
  have hown : ∀ k1, (l ++ [some (⟨p, some k⟩ : smart_ptr)]).countP (owns k1)
      = l.countP (owns k1) + (if k1 = k then 1 else 0) := by
    intro k1
    rw [countP_push, owns_mk]
    by_cases hk1 : k1 = k
    · subst hk1; simp [hp]
    · have : ¬ k = k1 := fun e => hk1 e.symm
      simp [hk1, this]
  refine ⟨fun k1 c1 h => ?_, fun h hm hp1 => ?_, fun k1 c1 h => ?_⟩
  · simp only [Sys.owners, hown k1]
    by_cases hk1 : k1 = k
    · subst hk1
      simp [Heap.store] at h
      have := hI.count_eq k1 c hk
      simp [Sys.owners] at this
      subst h
      simp [shared_count.add_count, this]
    · simp [Heap.store, Function.update_noteq hk1] at h
      have := hI.count_eq k1 c1 h
      simp [Sys.owners] at this
      simp [hk1, this]
  · have hex : ∃ k1 c1, h.shared_count_ = some k1 ∧ m.counts k1 = some c1 := by
      rcases List.mem_append.1 hm with h1 | h1
      · exact hI.live h h1 hp1
      · simp at h1
        subst h1
        exact ⟨k, c, rfl, hk⟩
    obtain ⟨k1, c1, e1, e2⟩ := hex
    by_cases hk1 : k1 = k
    · subst hk1
      exact ⟨k1, c.add_count, e1, by simp [Heap.store]⟩
    · exact ⟨k1, c1, e1, by simp [Heap.store, Function.update_noteq hk1, e2]⟩
  · by_cases hk1 : k1 = k
    · subst hk1
      simp [Heap.store] at h
      subst h
      have := hI.pos k1 c hk
      simp [shared_count.add_count]
      omega
    · simp [Heap.store, Function.update_noteq hk1] at h
      exact hI.pos k1 c1 h

theorem Inv.push_new {l : List (Option smart_ptr)} {m m1 : Heap} (hI : Inv ⟨l, m⟩)
    {k p : Nat} (hk : m.counts k = none) (hp : p ≠ 0)
    (hm1 : m1.counts = Function.update m.counts k (some shared_count.ctor)) :
    Inv ⟨l ++ [some ⟨p, some k⟩], m1⟩ := by
  have hzero : l.countP (owns k) = 0 := by
    rw [List.countP_eq_zero]
    intro x hx hown
    cases x with
    | none => simp [owns_none] at hown
    | some h =>
      obtain ⟨h1, h2⟩ := (owns_some k h).1 hown
      obtain ⟨k1, c1, e1, e2⟩ := hI.live h hx h1
      rw [h2] at e1
      cases e1
      rw [hk] at e2
      cases e2
  have hown : ∀ k1, (l ++ [some (⟨p, some k⟩ : smart_ptr)]).countP (owns k1)
      = l.countP (owns k1) + (if k1 = k then 1 else 0) := by
    intro k1
    rw [countP_push, owns_mk]
    by_cases hk1 : k1 = k
    · subst hk1; simp [hp]
    · have : ¬ k = k1 := fun e => hk1 e.symm
      simp [hk1, this]
  refine ⟨fun k1 c1 h => ?_, fun h hm hp1 => ?_, fun k1 c1 h => ?_⟩
  · simp only [Sys.owners, hown k1]
    by_cases hk1 : k1 = k
    · subst hk1
      simp [hm1] at h
      subst h
      simp [shared_count.ctor, hzero]
    · simp [hm1, Function.update_noteq hk1] at h
      have := hI.count_eq k1 c1 h
      simp [Sys.owners] at this
      simp [hk1, this]
  · have hex : ∃ k1 c1, h.shared_count_ = some k1 ∧ m1.counts k1 = some c1 := by
      rcases List.mem_append.1 hm with h1 | h1
      · obtain ⟨k1, c1, e1, e2⟩ := hI.live h h1 hp1
        have hk1 : k1 ≠ k := by
          intro e
          subst e
          rw [hk] at e2
          cases e2
        exact ⟨k1, c1, e1, by rw [hm1, Function.update_noteq hk1]; exact e2⟩
      · simp at h1
        subst h1
        exact ⟨k, shared_count.ctor, rfl, by simp [hm1]⟩
    exact hex
  · by_cases hk1 : k1 = k
    · subst hk1
      simp [hm1] at h
      subst h
      simp [shared_count.ctor]
    · simp [hm1, Function.update_noteq hk1] at h
      exact hI.pos k1 c1 h

theorem Inv.swap_slots {l : List (Option smart_ptr)} {m : Heap} (hI : Inv ⟨l, m⟩)
    {i j : Nat} {a b : smart_ptr} (hi : l[i]? = some (some a)) (hj : l[j]? = some (some b)) :
    Inv ⟨(l.set i (some b)).set j (some a), m⟩ := by
  have hma : some a ∈ l := List.getElem?_mem hi
  have hmb : some b ∈ l := List.getElem?_mem hj
  have hil : i < l.length := (List.getElem?_eq_some.1 hi).1
  refine hI.handles_congr (fun k => ?_) (fun h hm hp => ?_)
  · have h1 := countP_set_add (owns k) l i (some b) (some a) hi
    by_cases hij : i = j
    · subst hij
      have h2 := countP_set_add (owns k) (l.set i (some b)) i (some a) (some b)
        (by simp [List.getElem?_set, hil])
      rw [hi] at hj
      cases hj
      omega
    · have h2 := countP_set_add (owns k) (l.set i (some b)) j (some a) (some b)
        (by simp [List.getElem?_set, hij, hj])
      omega
  · rcases List.mem_or_eq_of_mem_set hm with h1 | h1
    · rcases List.mem_or_eq_of_mem_set h1 with h2 | h2
      · exact ⟨h, h2, hp, rfl⟩
      · have e : h = b := Option.some.inj h2
        exact ⟨b, hmb, e ▸ hp, by rw [e]⟩
    · have e : h = a := Option.some.inj h1
      exact ⟨a, hma, e ▸ hp, by rw [e]⟩

theorem Inv.move {s s1 : Sys} {i : Nat} (hI : Inv s) (hs : s.move i = some s1) : Inv s1 := by
  obtain ⟨l, m⟩ := s
  unfold Sys.move at hs
  cases ho : Sys.handle ⟨l, m⟩ i with
  | none => simp [ho] at hs
  | some other =>
    have hi := Sys.handle_eq_some.1 ho
    simp only [ho, Option.some.injEq] at hs
    subst hs
    have hmo : some other ∈ l := List.getElem?_mem hi
    by_cases hp : other.ptr_ = 0
    · have hr : smart_ptr.ctor_move other = (⟨other.ptr_, none⟩, other) := by
        simp [smart_ptr.ctor_move, hp]
      rw [hr]
      have hset : l.set i (some other) = l := by
        apply List.ext_getElem?
        intro n
        rw [List.getElem?_set]
        by_cases hn : i = n
        · subst hn
          simp [(List.getElem?_eq_some.1 hi).1, hi]
        · simp [hn]
      show Inv ⟨l.set i (some other) ++ [some ⟨other.ptr_, none⟩], m⟩
      rw [hset]
      exact hI.push_null _ (fun h hh => by cases hh; exact hp)
    · have hr : smart_ptr.ctor_move other
          = (⟨other.ptr_, other.shared_count_⟩, { other with ptr_ := 0 }) := by
        simp [smart_ptr.ctor_move, hp]
      rw [hr]
      refine hI.handles_congr (fun k => ?_) (fun h hm hp1 => ?_)
      · show (l.set i (some { other with ptr_ := 0 })
            ++ [some (⟨other.ptr_, other.shared_count_⟩ : smart_ptr)]).countP (owns k)
            = l.countP (owns k)
        rw [countP_push]
        have h1 := countP_set_add (owns k) l i (some { other with ptr_ := 0 }) (some other) hi
        rw [owns_null k { other with ptr_ := 0 } rfl] at h1
        have h2 : owns k (some ⟨other.ptr_, other.shared_count_⟩) = owns k (some other) := rfl
        rw [h2]
        simp at h1
        omega
      · rcases List.mem_append.1 hm with h1 | h1
        · rcases List.mem_or_eq_of_mem_set h1 with h2 | h2
          · exact ⟨h, h2, hp1, rfl⟩
          · have e : h = { other with ptr_ := 0 } := Option.some.inj h2
            rw [e] at hp1
            exact absurd rfl hp1
        · simp at h1
          subst h1
          exact ⟨other, hmo, hp, rfl⟩

/-! ## The constructors and the destructor, case by case -/

theorem counter_eq_some {m : Heap} {h : smart_ptr} {k : Nat} {c : shared_count} :
    h.counter m = some (k, c) ↔ h.shared_count_ = some k ∧ m.counts k = some c := by
  unfold smart_ptr.counter
  rcases hs : h.shared_count_ with _ | k1
  · simp
  · simp only [Option.some.injEq]
    rcases hc : m.counts k1 with _ | c1
    · constructor
      · intro e
        cases e
      · rintro ⟨rfl, e⟩
        rw [hc] at e
        cases e
    · simp only [Option.some.injEq, Prod.mk.injEq]
      constructor
      · rintro ⟨rfl, rfl⟩
        exact ⟨rfl, hc⟩
      · rintro ⟨rfl, e⟩
        rw [hc] at e
        exact ⟨rfl, Option.some.inj e⟩

theorem counter_of {m : Heap} {h : smart_ptr} {k : Nat} {c : shared_count}
    (hs : h.shared_count_ = some k) (hc : m.counts k = some c) : h.counter m = some (k, c) :=
  counter_eq_some.2 ⟨hs, hc⟩

theorem ctor_alias_null (m : Heap) (o : smart_ptr) :
    smart_ptr.ctor_alias m o 0 = some (⟨0, none⟩, m) := rfl

theorem ctor_alias_nonnull {m : Heap} {o : smart_ptr} {ptr k : Nat} {c : shared_count}
    (hp : ptr ≠ 0) (hs : o.shared_count_ = some k) (hc : m.counts k = some c) :
    smart_ptr.ctor_alias m o ptr = some (⟨ptr, some k⟩, m.store k c.add_count) := by
  simp [smart_ptr.ctor_alias, hp, counter_of hs hc, hs]

theorem ctor_alias_cases {m m1 : Heap} {o h : smart_ptr} {ptr : Nat}
    (hh : smart_ptr.ctor_alias m o ptr = some (h, m1)) :
    (ptr = 0 ∧ h = ⟨0, none⟩ ∧ m1 = m) ∨
    (ptr ≠ 0 ∧ ∃ k c, o.shared_count_ = some k ∧ m.counts k = some c ∧
      h = ⟨ptr, some k⟩ ∧ m1 = m.store k c.add_count) := by
  by_cases hp : ptr = 0
  · subst hp
    rw [ctor_alias_null] at hh
    simp only [Option.some.injEq, Prod.mk.injEq] at hh
    exact Or.inl ⟨rfl, hh.1.symm, hh.2.symm⟩
  · right
    refine ⟨hp, ?_⟩
    cases hc : o.counter m with
    | none => simp [smart_ptr.ctor_alias, hp, hc] at hh
    | some kc =>
      obtain ⟨k, c⟩ := kc
      obtain ⟨e1, e2⟩ := counter_eq_some.1 hc
      rw [ctor_alias_nonnull hp e1 e2] at hh
      simp only [Option.some.injEq, Prod.mk.injEq] at hh
      exact ⟨k, c, e1, e2, hh.1.symm, hh.2.symm⟩

theorem ctor_copy_eq (m : Heap) (o : smart_ptr) :
    smart_ptr.ctor_copy m o = smart_ptr.ctor_alias m o o.ptr_ := rfl

theorem dtor_null {m : Heap} {h : smart_ptr} (hp : h.ptr_ = 0) : smart_ptr.dtor m h = some m := by
  simp [smart_ptr.dtor, hp]

theorem dtor_last {m : Heap} {h : smart_ptr} {k : Nat} {c : shared_count}
    (hp : h.ptr_ ≠ 0) (hs : h.shared_count_ = some k) (hc : m.counts k = some c)
    (h1 : c.count_ = 1) :
    smart_ptr.dtor m h
      = some (((m.store k ⟨c.count_ - 1⟩).delete_value h.ptr_).delete_count k) := by
  simp [smart_ptr.dtor, hp, counter_of hs hc, shared_count.reduce_count, h1]

theorem dtor_more {m : Heap} {h : smart_ptr} {k : Nat} {c : shared_count}
    (hp : h.ptr_ ≠ 0) (hs : h.shared_count_ = some k) (hc : m.counts k = some c)
    (h1 : c.count_ ≠ 1) :
    smart_ptr.dtor m h = some (m.store k ⟨c.count_ - 1⟩) := by
  have : ¬ c.count_ - 1 = 0 := by omega
  simp [smart_ptr.dtor, hp, counter_of hs hc, shared_count.reduce_count, this]

theorem dtor_cases {m m1 : Heap} {h : smart_ptr} (hd : smart_ptr.dtor m h = some m1) :
    (h.ptr_ = 0 ∧ m1 = m) ∨
    (h.ptr_ ≠ 0 ∧ ∃ k c, h.shared_count_ = some k ∧ m.counts k = some c ∧
      ((c.count_ = 1 ∧ m1 = ((m.store k ⟨c.count_ - 1⟩).delete_value h.ptr_).delete_count k) ∨
       (c.count_ ≠ 1 ∧ m1 = m.store k ⟨c.count_ - 1⟩))) := by
  by_cases hp : h.ptr_ = 0
  · rw [dtor_null hp] at hd
    exact Or.inl ⟨hp, (Option.some.inj hd).symm⟩
  · right
    refine ⟨hp, ?_⟩
    cases hc : h.counter m with
    | none => simp [smart_ptr.dtor, hp, hc] at hd
    | some kc =>
      obtain ⟨k, c⟩ := kc
      obtain ⟨e1, e2⟩ := counter_eq_some.1 hc
      refine ⟨k, c, e1, e2, ?_⟩
      by_cases h1 : c.count_ = 1
      · rw [dtor_last hp e1 e2 h1] at hd
        exact Or.inl ⟨h1, (Option.some.inj hd).symm⟩
      · rw [dtor_more hp e1 e2 h1] at hd
        exact Or.inr ⟨h1, (Option.some.inj hd).symm⟩

/-! ## Preservation of the invariant -/

theorem Inv.cast {s s1 : Sys} {i : Nat} (g : smart_ptr → Nat) (hI : Inv s)
    (hs : s.cast (fun m o => smart_ptr.ctor_alias m o (g o)) i = some s1) : Inv s1 := by
  obtain ⟨l, m⟩ := s
  unfold Sys.cast at hs
  cases ho : Sys.handle ⟨l, m⟩ i with
  | none => simp [ho] at hs
  | some other =>
    simp only [ho] at hs
    cases hc : smart_ptr.ctor_alias m other (g other) with
    | none => simp [hc] at hs
    | some r =>
      obtain ⟨h, m1⟩ := r
      simp only [hc, Option.some.injEq] at hs
      subst hs
      rcases ctor_alias_cases hc with ⟨_, rfl, rfl⟩ | ⟨hp, k, c, _, e2, rfl, rfl⟩
      · exact hI.push_null _ (fun h hh => by cases hh; rfl)
      · exact hI.push_share e2 hp

theorem Inv.construct {s s1 : Sys} {p k : Nat} (hI : Inv s)
    (hs : s.construct p k = some s1) : Inv s1 := by
  obtain ⟨l, m⟩ := s
  unfold Sys.construct at hs
  by_cases hp : p = 0
  · subst hp
    simp [smart_ptr.ctor] at hs
    subst hs
    exact hI.push_null _ (fun h hh => by cases hh; rfl)
  · by_cases hk : k ≠ 0 ∧ m.counts k = none
    · simp [smart_ptr.ctor, hp, Heap.new_shared_count, Heap.new_value, hk] at hs
      subst hs
      exact hI.push_new hk.2 hp rfl
    · simp [smart_ptr.ctor, hp, Heap.new_shared_count, Heap.new_value, hk] at hs

theorem Inv.swap {s s1 : Sys} {i j : Nat} (hI : Inv s) (hs : s.swap i j = some s1) : Inv s1 := by
  obtain ⟨l, m⟩ := s
  unfold Sys.swap at hs
  cases ha : Sys.handle ⟨l, m⟩ i with
  | none => simp [ha] at hs
  | some a =>
    cases hb : Sys.handle ⟨l, m⟩ j with
    | none => simp [ha, hb] at hs
    | some b =>
      simp only [ha, hb, Option.some.injEq] at hs
      subst hs
      exact hI.swap_slots (Sys.handle_eq_some.1 ha) (Sys.handle_eq_some.1 hb)

theorem Inv.destroy {s s1 : Sys} {i : Nat} (hI : Inv s) (hs : s.destroy i = some s1) :
    Inv s1 := by
  obtain ⟨l, m⟩ := s
  unfold Sys.destroy at hs
  cases ho : Sys.handle ⟨l, m⟩ i with
  | none => simp [ho] at hs
  | some h =>
    have hi := Sys.handle_eq_some.1 ho
    simp only [ho] at hs
    cases hd : smart_ptr.dtor m h with
    | none => simp [hd] at hs
    | some m1 =>
      simp only [hd, Option.some.injEq] at hs
      subst hs
      have hmem : ∀ x, some x ∈ l.set i none → some x ∈ l := by
        intro x hx
        rcases List.mem_or_eq_of_mem_set hx with h1 | h1
        · exact h1
        · cases h1
      have hcnt : ∀ k1, (l.set i none).countP (owns k1) + (owns k1 (some h)).toNat
          = l.countP (owns k1) := by
        intro k1
        have := countP_set_add (owns k1) l i none (some h) hi
        simpa [owns_none] using this
      rcases dtor_cases hd with ⟨hp, rfl⟩ | ⟨hp, k, c, e1, e2, hcase⟩
      · refine hI.handles_congr (fun k1 => ?_) (fun x hx hp1 => ⟨x, hmem x hx, hp1, rfl⟩)
        have := hcnt k1
        rw [owns_null k1 h hp] at this
        simpa using this
      · have hownk : owns k (some h) = true := (owns_some k h).2 ⟨hp, e1⟩
        have hown_ne : ∀ k1, k1 ≠ k → owns k1 (some h) = false := by
          intro k1 hk1
          cases hb : owns k1 (some h) with
          | false => rfl
          | true =>
            have := ((owns_some k1 h).1 hb).2
            rw [e1] at this
            exact absurd (Option.some.inj this).symm hk1
        have hce := hI.count_eq k c e2
        have hpos := hI.pos k c e2
        simp only [Sys.owners] at hce
        have hk_cnt := hcnt k
        rw [hownk] at hk_cnt
        simp only [Bool.toNat_true] at hk_cnt
        rcases hcase with ⟨h1, rfl⟩ | ⟨h1, rfl⟩
        · -- the last owner: the counter is deleted
          have hzero : (l.set i none).countP (owns k) = 0 := by omega
          have hcounts : ∀ k1, k1 ≠ k →
              (((m.store k ⟨c.count_ - 1⟩).delete_value h.ptr_).delete_count k).counts k1
                = m.counts k1 := by
            intro k1 hk1
            simp [Heap.delete_count, Heap.delete_value, Heap.store, Function.update_noteq hk1]
          have hgone :
              (((m.store k ⟨c.count_ - 1⟩).delete_value h.ptr_).delete_count k).counts k
                = none := by
            simp [Heap.delete_count]
          refine ⟨fun k1 c1 hc1 => ?_, fun x hx hp1 => ?_, fun k1 c1 hc1 => ?_⟩
          · by_cases hk1 : k1 = k
            · subst hk1
              simp only [hgone] at hc1
              cases hc1
            · simp only [hcounts k1 hk1] at hc1
              have := hI.count_eq k1 c1 hc1
              have h2 := hcnt k1
              rw [hown_ne k1 hk1] at h2
              simp only [Sys.owners] at this ⊢
              simp only [Bool.toNat_false, Nat.add_zero] at h2
              rw [h2]
              exact this
          · obtain ⟨k1, c1, f1, f2⟩ := hI.live x (hmem x hx) hp1
            have hk1 : k1 ≠ k := by
              intro e
              subst e
              rw [List.countP_eq_zero] at hzero
              exact hzero (some x) hx ((owns_some k1 x).2 ⟨hp1, f1⟩)
            exact ⟨k1, c1, f1, by simp only [hcounts k1 hk1]; exact f2⟩
          · by_cases hk1 : k1 = k
            · subst hk1
              simp only [hgone] at hc1
              cases hc1
            · simp only [hcounts k1 hk1] at hc1
              exact hI.pos k1 c1 hc1
        · -- other owners remain: the counter is decremented
          have hcounts : ∀ k1, k1 ≠ k → (m.store k ⟨c.count_ - 1⟩).counts k1 = m.counts k1 := by
            intro k1 hk1
            simp [Heap.store, Function.update_noteq hk1]
          have hnew : (m.store k ⟨c.count_ - 1⟩).counts k = some ⟨c.count_ - 1⟩ := by
            simp [Heap.store]
          refine ⟨fun k1 c1 hc1 => ?_, fun x hx hp1 => ?_, fun k1 c1 hc1 => ?_⟩
          · by_cases hk1 : k1 = k
            · subst hk1
              simp only [hnew, Option.some.injEq] at hc1
              subst hc1
              simp only [Sys.owners]
              omega
            · simp only [hcounts k1 hk1] at hc1
              have := hI.count_eq k1 c1 hc1
              have h2 := hcnt k1
              rw [hown_ne k1 hk1] at h2
              simp only [Sys.owners] at this ⊢
              simp only [Bool.toNat_false, Nat.add_zero] at h2
              rw [h2]
              exact this
          · obtain ⟨k1, c1, f1, f2⟩ := hI.live x (hmem x hx) hp1
            by_cases hk1 : k1 = k
            · subst hk1
              exact ⟨k1, _, f1, hnew⟩
            · exact ⟨k1, c1, f1, by simp only [hcounts k1 hk1]; exact f2⟩
          · by_cases hk1 : k1 = k
            · subst hk1
              simp only [hnew, Option.some.injEq] at hc1
              subst hc1
              show 1 ≤ c.count_ - 1
              omega
            · simp only [hcounts k1 hk1] at hc1
              exact hI.pos k1 c1 hc1

theorem Inv.copy {s s1 : Sys} {i : Nat} (hI : Inv s) (hs : s.copy i = some s1) : Inv s1 :=
  Inv.cast (fun o => o.ptr_) hI hs

theorem Inv.copy_with {s s1 : Sys} {i ptr : Nat} (hI : Inv s)
    (hs : s.copy_with i ptr = some s1) : Inv s1 :=
  Inv.cast (fun _ => ptr) hI hs

/-- Every defined operation that runs only constructors written in the source preserves the
invariant. -/
theorem Inv.apply {s s1 : Sys} (op : Op) (hI : Inv s) (hw : Op.written op)
    (hs : s.apply op = some s1) : Inv s1 := by
  cases op with
  | construct p k => exact hI.construct hs
  | copy i => exact hI.copy hs
  | copy_same i => exact absurd hw id
  | move i => exact hI.move hs
  | copy_with i ptr => exact hI.copy_with hs
  | static_pointer_cast i => exact Inv.cast (fun o => static_cast o.get) hI hs
  | dynamic_pointer_cast ok i => exact Inv.cast (fun o => dynamic_cast ok o.get) hI hs
  | reinterpret_pointer_cast i => exact Inv.cast (fun o => reinterpret_cast o.get) hI hs
  | const_pointer_cast i => exact Inv.cast (fun o => const_cast o.get) hI hs
  | swap i j => exact hI.swap hs
  | swap_free i j => exact hI.swap hs
  | copy_assign i j => exact absurd hw id
  | move_assign i j => exact absurd hw id
  | destroy i => exact hI.destroy hs

theorem Reachable.inv {D : Sys → Op → Prop} (hD : ∀ s op, D s op → Op.written op) {s : Sys}
    (hr : Reachable D s) : Inv s := by
  induction hr with
  | init => exact Inv.empty
  | step op _ hd hs ih => exact ih.apply op (hD _ _ hd) hs

/-! ## Every live counter is positive, whatever constructors run -/

theorem positive_store {m : Heap} {k : Nat} {c : shared_count} (hm : m.positive)
    (hc : 1 ≤ c.count_) : (m.store k c).positive := by
  intro k1 c1 h1
  by_cases hk : k1 = k
  · subst hk
    simp only [Heap.store, Function.update_same, Option.some.injEq] at h1
    rw [← h1]
    exact hc
  · simp only [Heap.store, Function.update_noteq hk] at h1
    exact hm k1 c1 h1

theorem positive_ctor_alias {m m1 : Heap} {o h : smart_ptr} {ptr : Nat} (hm : m.positive)
    (hc : smart_ptr.ctor_alias m o ptr = some (h, m1)) : m1.positive := by
  rcases ctor_alias_cases hc with ⟨_, _, rfl⟩ | ⟨_, k, c, _, e2, _, rfl⟩
  · exact hm
  · refine positive_store hm ?_
    have := hm k c e2
    simp only [shared_count.add_count]
    omega

theorem positive_dtor {m m1 : Heap} {h : smart_ptr} (hm : m.positive)
    (hd : smart_ptr.dtor m h = some m1) : m1.positive := by
  rcases dtor_cases hd with ⟨_, rfl⟩ | ⟨_, k, c, _, e2, ⟨_, rfl⟩ | ⟨h1, rfl⟩⟩
  · exact hm
  · intro k1 c1 hc1
    by_cases hk : k1 = k
    · subst hk
      simp [Heap.delete_count] at hc1
    · simp only [Heap.delete_count, Heap.delete_value, Heap.store,
        Function.update_noteq hk] at hc1
      exact hm k1 c1 hc1
  · refine positive_store hm ?_
    have := hm k c e2
    show 1 ≤ c.count_ - 1
    omega

theorem positive_cast {s s1 : Sys} {i : Nat} (g : smart_ptr → Nat) (hm : s.heap.positive)
    (hs : s.cast (fun m o => smart_ptr.ctor_alias m o (g o)) i = some s1) :
    s1.heap.positive := by
  unfold Sys.cast at hs
  cases ho : s.handle i with
  | none => simp [ho] at hs
  | some other =>
    simp only [ho] at hs
    cases hc : smart_ptr.ctor_alias s.heap other (g other) with
    | none => simp [hc] at hs
    | some r =>
      obtain ⟨h, m1⟩ := r
      simp only [hc, Option.some.injEq] at hs
      subst hs
      exact positive_ctor_alias hm hc

theorem positive_construct {s s1 : Sys} {p k : Nat} (hm : s.heap.positive)
    (hs : s.construct p k = some s1) : s1.heap.positive := by
  unfold Sys.construct at hs
  by_cases hp : p = 0
  · subst hp
    simp [smart_ptr.ctor] at hs
    subst hs
    exact hm
  · by_cases hk : k ≠ 0 ∧ s.heap.counts k = none
    · simp [smart_ptr.ctor, hp, Heap.new_shared_count, Heap.new_value, hk] at hs
      subst hs
      intro k1 c1 h1
      by_cases hk1 : k1 = k
      · subst hk1
        simp at h1
        subst h1
        simp [shared_count.ctor]
      · simp only [Function.update_noteq hk1] at h1
        exact hm k1 c1 h1
    · simp [smart_ptr.ctor, hp, Heap.new_shared_count, Heap.new_value, hk] at hs

theorem positive_destroy {s s1 : Sys} {i : Nat} (hm : s.heap.positive)
    (hs : s.destroy i = some s1) : s1.heap.positive := by
  unfold Sys.destroy at hs
  cases ho : s.handle i with
  | none => simp [ho] at hs
  | some h =>
    simp only [ho] at hs
    cases hd : smart_ptr.dtor s.heap h with
    | none => simp [hd] at hs
    | some m1 =>
      simp only [hd, Option.some.injEq] at hs
      subst hs
      exact positive_dtor hm hd

theorem heap_copy_same {s s1 : Sys} {i : Nat} (hs : s.copy_same i = some s1) :
    s1.heap = s.heap := by
  unfold Sys.copy_same at hs
  cases ho : s.handle i with
  | none => simp [ho] at hs
  | some h =>
    simp only [ho, Option.some.injEq] at hs
    subst hs
    rfl

theorem heap_move {s s1 : Sys} {i : Nat} (hs : s.move i = some s1) : s1.heap = s.heap := by
  unfold Sys.move at hs
  cases ho : s.handle i with
  | none => simp [ho] at hs
  | some h =>
    simp only [ho, Option.some.injEq] at hs
    subst hs
    rfl

theorem heap_swap {s s1 : Sys} {i j : Nat} (hs : s.swap i j = some s1) : s1.heap = s.heap := by
  unfold Sys.swap at hs
  cases ha : s.handle i with
  | none => simp [ha] at hs
  | some a =>
    cases hb : s.handle j with
    | none => simp [ha, hb] at hs
    | some b =>
      simp only [ha, hb, Option.some.injEq] at hs
      subst hs
      rfl

theorem heap_assign_body {s s1 : Sys} {i r : Nat} (hs : s.assign_body i r = some s1) :
    s1.heap = s.heap := by
  unfold Sys.assign_body at hs
  cases ha : s.handle i with
  | none => simp [ha] at hs
  | some a =>
    cases hb : s.handle r with
    | none => simp [ha, hb] at hs
    | some b =>
      simp only [ha, hb, Option.some.injEq] at hs
      subst hs
      rfl

theorem positive_copy_assign {s s1 : Sys} {i j : Nat} (hm : s.heap.positive)
    (hs : s.copy_assign i j = some s1) : s1.heap.positive := by
  unfold Sys.copy_assign at hs
  obtain ⟨s2, h2, hs⟩ := Option.bind_eq_some.1 hs
  obtain ⟨s3, h3, hs⟩ := Option.bind_eq_some.1 hs
  refine positive_destroy ?_ hs
  rw [heap_assign_body h3, heap_copy_same h2]
  exact hm

/-- Every defined operation, the ones that run the implicitly declared copy constructor
included, keeps every live counter at a count of at least 1. -/
theorem positive_apply {s s1 : Sys} (op : Op) (hm : s.heap.positive)
    (hs : s.apply op = some s1) : s1.heap.positive := by
  cases op with
  | construct p k => exact positive_construct hm hs
  | copy i => exact positive_cast (fun o => o.ptr_) hm hs
  | copy_same i =>
    rw [heap_copy_same hs]
    exact hm
  | move i =>
    rw [heap_move hs]
    exact hm
  | copy_with i ptr => exact positive_cast (fun _ => ptr) hm hs
  | static_pointer_cast i => exact positive_cast (fun o => static_cast o.get) hm hs
  | dynamic_pointer_cast ok i => exact positive_cast (fun o => dynamic_cast ok o.get) hm hs
  | reinterpret_pointer_cast i => exact positive_cast (fun o => reinterpret_cast o.get) hm hs
  | const_pointer_cast i => exact positive_cast (fun o => const_cast o.get) hm hs
  | swap i j =>
    rw [heap_swap hs]
    exact hm
  | swap_free i j =>
    rw [heap_swap hs]
    exact hm
  | copy_assign i j => exact positive_copy_assign hm hs
  | move_assign i j => exact positive_copy_assign hm hs
  | destroy i => exact positive_destroy hm hs

theorem Reachable.positive {D : Sys → Op → Prop} {s : Sys} (hr : Reachable D s) :
    s.heap.positive := by
  induction hr with
  | init =>
    intro k c h
    simp [Sys.empty, Heap.empty] at h
  | step op _ _ hs ih => exact positive_apply op ih hs

theorem Reachable.mono {D E : Sys → Op → Prop} (hDE : ∀ s op, D s op → E s op) {s : Sys}
    (hr : Reachable D s) : Reachable E s := by
  induction hr with
  | init => exact Reachable.init
  | step op _ hd hs ih => exact Reachable.step op ih (hDE _ _ hd) hs

/-! ## Lookup after an operation -/

theorem handle_mk (l : List (Option smart_ptr)) (m : Heap) (i : Nat) :
    (⟨l, m⟩ : Sys).handle i = (l[i]?).join := by
  unfold Sys.handle
  rcases h : l[i]? with _ | x
  · simp [h]
  · cases x <;> simp [h]

theorem handle_push_lt {l : List (Option smart_ptr)} {m : Heap} {i : Nat} (x : Option smart_ptr)
    (hi : i < l.length) : (⟨l ++ [x], m⟩ : Sys).handle i = (l[i]?).join := by
  rw [handle_mk, List.getElem?_append_left hi]

theorem handle_push_len (l : List (Option smart_ptr)) (m : Heap) (x : Option smart_ptr) :
    (⟨l ++ [x], m⟩ : Sys).handle l.length = x := by
  rw [handle_mk]
  simp

theorem two_owners_written : Reachable Op.fresh_written two_owners :=
  Reachable.step (.copy 0)
    (Reachable.step (.construct 1 11) Reachable.init ⟨fun _ => rfl, trivial⟩ rfl)
    ⟨trivial, trivial⟩ rfl

/-- The count invariant where only constructors written in the source run: in every state
reachable without same-type copy construction and without assignment, the count of every live
`shared_count` is the number of live handles with a non-null `ptr_` that reference it. -/
theorem count_equals_owners_written (s : Sys) (hr : Reachable Op.fresh_written s) (k : Nat)
    (c : shared_count) (hk : s.heap.counts k = some c) : c.get_count = (s.owners k : Int) :=
  (hr.inv (fun _ _ h => h.2)).count_eq k c hk

theorem count_equals_owners_written_witness :
    Reachable Op.fresh_written two_owners ∧ two_owners.heap.counts 11 = some ⟨2⟩ ∧
      (⟨2⟩ : shared_count).get_count = (two_owners.owners 11 : Int) :=
  ⟨two_owners_written, rfl,
    count_equals_owners_written two_owners two_owners_written 11 ⟨2⟩ rfl⟩

/-- C1 fails on the code. After `smart_ptr<T> x0(p); smart_ptr<T> x1(x0);` (one handle type), and
equally after `x0(p); x1; x1 = x0;`, the state is reachable, the counter at 11 is live with
count 1, and two live handles with a non-null `ptr_` reference it: the implicitly declared copy
constructor copied the members without `add_count`. -/
theorem implicit_copy_breaks_count :
    (∃ s, Sys.empty.run [.construct 1 11, .copy_same 0] = some s ∧ Reachable Op.fresh s ∧
      s.handle 0 = some ⟨1, some 11⟩ ∧ s.handle 1 = some ⟨1, some 11⟩ ∧
      s.heap.counts 11 = some ⟨1⟩ ∧ s.owners 11 = 2) ∧
    (∃ s, Sys.empty.run [.construct 1 11, .construct 0 0, .copy_assign 1 0] = some s ∧
      Reachable Op.fresh s ∧
      s.handle 0 = some ⟨1, some 11⟩ ∧ s.handle 1 = some ⟨1, some 11⟩ ∧
      s.heap.counts 11 = some ⟨1⟩ ∧ s.owners 11 = 2) ∧
    ¬ (∀ s, Reachable Op.fresh s → ∀ k c, s.heap.counts k = some c →
        c.get_count = (s.owners k : Int)) := by
  have r1 : Reachable Op.fresh
      ((Sys.empty.run [.construct 1 11, .copy_same 0]).getD Sys.empty) :=
    Reachable.step (.copy_same 0)
      (Reachable.step (.construct 1 11) Reachable.init (fun _ => rfl) rfl) trivial rfl
  have r2 : Reachable Op.fresh
      ((Sys.empty.run [.construct 1 11, .construct 0 0, .copy_assign 1 0]).getD Sys.empty) :=
    Reachable.step (.copy_assign 1 0)
      (Reachable.step (.construct 0 0)
        (Reachable.step (.construct 1 11) Reachable.init (fun _ => rfl) rfl)
        (fun h => absurd rfl h) rfl) trivial rfl
  refine ⟨⟨_, rfl, r1, rfl, rfl, rfl, by decide⟩, ⟨_, rfl, r2, rfl, rfl, rfl, by decide⟩, ?_⟩
  intro hall
  have := hall _ r1 11 ⟨1⟩ rfl
  revert this
  decide

/-! ## Observers -/

theorem use_count_null {m : Heap} {h : smart_ptr} (hp : h.ptr_ = 0) :
    h.use_count m = some 0 := by
  simp [smart_ptr.use_count, hp]

theorem use_count_nonnull {m : Heap} {h : smart_ptr} {k : Nat} {c : shared_count}
    (hp : h.ptr_ ≠ 0) (hs : h.shared_count_ = some k) (hc : m.counts k = some c) :
    h.use_count m = some c.count_ := by
  simp [smart_ptr.use_count, hp, counter_of hs hc, shared_count.get_count]

theorem use_count_cases {m : Heap} {h : smart_ptr} {n : Int} (hu : h.use_count m = some n)
    (hp : h.ptr_ ≠ 0) :
    ∃ k c, h.shared_count_ = some k ∧ m.counts k = some c ∧ c.count_ = n := by
  cases hc : h.counter m with
  | none => simp [smart_ptr.use_count, hp, hc] at hu
  | some kc =>
    obtain ⟨k, c⟩ := kc
    obtain ⟨e1, e2⟩ := counter_eq_some.1 hc
    rw [use_count_nonnull hp e1 e2] at hu
    exact ⟨k, c, e1, e2, Option.some.inj hu⟩

theorem sys_use_count {s : Sys} {i : Nat} {h : smart_ptr} (hi : s.handle i = some h) :
    s.use_count i = h.use_count s.heap := by
  simp [Sys.use_count, hi]

theorem sys_get {s : Sys} {i : Nat} {h : smart_ptr} (hi : s.handle i = some h) :
    s.get i = some h.ptr_ := by
  simp [Sys.get, hi, smart_ptr.get]

theorem handle_push_old {l : List (Option smart_ptr)} {m m1 : Heap} {i : Nat} {h : smart_ptr}
    (x : Option smart_ptr) (hi : (⟨l, m⟩ : Sys).handle i = some h) :
    (⟨l ++ [x], m1⟩ : Sys).handle i = some h := by
  rw [handle_push_lt x (Sys.handle_lt hi), ← handle_mk l m i, hi]

theorem store_counts_same (m : Heap) (k : Nat) (c : shared_count) :
    (m.store k c).counts k = some c := by
  simp [Heap.store]

theorem store_counts_other (m : Heap) {k k1 : Nat} (c : shared_count) (h : k1 ≠ k) :
    (m.store k c).counts k1 = m.counts k1 := by
  simp [Heap.store, Function.update_noteq h]

theorem cast_eq {s : Sys} {i : Nat} {o h : smart_ptr} {m1 : Heap}
    (f : Heap → smart_ptr → Option (smart_ptr × Heap)) (hi : s.handle i = some o)
    (hf : f s.heap o = some (h, m1)) : s.cast f i = some ⟨s.handles ++ [some h], m1⟩ := by
  simp [Sys.cast, hi, hf]

/-- C3: for a non-empty handle `A` (slot `i`) with `use_count() = c`, the copy constructor
`smart_ptr(const smart_ptr<U>&)` is defined and yields a handle `B` (the new slot) such that
`A.use_count() = B.use_count() = c + 1`, `B.get() = A.get()`, `B` references the same
`shared_count` as `A`, and `A` itself is unchanged. -/
theorem copy_co_owns (s : Sys) (i : Nat) (A : smart_ptr) (c : Int)
    (hA : s.handle i = some A) (hne : A.ptr_ ≠ 0) (hc : s.use_count i = some c) :
    ∃ s1 B, s.copy i = some s1 ∧ s1.handle s.handles.length = some B ∧
      s1.handle i = some A ∧
      s1.use_count i = some (c + 1) ∧ s1.use_count s.handles.length = some (c + 1) ∧
      B.get = A.get ∧ B.shared_count_ = A.shared_count_ ∧ s1.get i = s.get i := by
  obtain ⟨l, m⟩ := s
  rw [sys_use_count hA] at hc
  obtain ⟨k, cc, e1, e2, e3⟩ := use_count_cases hc hne
  have hcopy : smart_ptr.ctor_copy m A = some (⟨A.ptr_, some k⟩, m.store k cc.add_count) := by
    rw [ctor_copy_eq]
    exact ctor_alias_nonnull hne e1 e2
  have hs1 : Sys.copy ⟨l, m⟩ i
      = some ⟨l ++ [some ⟨A.ptr_, some k⟩], m.store k cc.add_count⟩ :=
    cast_eq (fun m o => smart_ptr.ctor_copy m o) hA hcopy
  have hA1 : (⟨l ++ [some ⟨A.ptr_, some k⟩], m.store k cc.add_count⟩ : Sys).handle i = some A :=
    handle_push_old _ hA
  have hB1 : (⟨l ++ [some ⟨A.ptr_, some k⟩], m.store k cc.add_count⟩ : Sys).handle l.length
      = some ⟨A.ptr_, some k⟩ := handle_push_len _ _ _
  refine ⟨_, ⟨A.ptr_, some k⟩, hs1, hB1, hA1, ?_, ?_, rfl, e1.symm, ?_⟩
  · rw [sys_use_count hA1, use_count_nonnull hne e1 (store_counts_same m k _)]
    simp [shared_count.add_count, e3]
  · rw [sys_use_count hB1, use_count_nonnull (h := ⟨A.ptr_, some k⟩) hne rfl
      (store_counts_same m k _)]
    simp [shared_count.add_count, e3]
  · rw [sys_get hA1, sys_get hA]

theorem copy_co_owns_witness :
    two_owners.handle 0 = some ⟨1, some 11⟩ ∧ two_owners.use_count 0 = some 2 ∧
    ∃ s1 B, two_owners.copy 0 = some s1 ∧ s1.handle two_owners.handles.length = some B ∧
      s1.handle 0 = some ⟨1, some 11⟩ ∧
      s1.use_count 0 = some (2 + 1) ∧ s1.use_count two_owners.handles.length = some (2 + 1) ∧
      B.get = (⟨1, some 11⟩ : smart_ptr).get ∧
      B.shared_count_ = (⟨1, some 11⟩ : smart_ptr).shared_count_ ∧
      s1.get 0 = two_owners.get 0 :=
  ⟨rfl, rfl, copy_co_owns two_owners 0 ⟨1, some 11⟩ 2 rfl (by decide) rfl⟩

theorem handle_set_self {l : List (Option smart_ptr)} {m : Heap} {i : Nat}
    (x : Option smart_ptr) (hi : i < l.length) : (⟨l.set i x, m⟩ : Sys).handle i = x := by
  rw [handle_mk, List.getElem?_set_self hi]
  rfl

theorem handle_set_ne {l : List (Option smart_ptr)} {m m1 : Heap} {i n : Nat}
    (x : Option smart_ptr) (hn : i ≠ n) :
    (⟨l.set i x, m1⟩ : Sys).handle n = (⟨l, m⟩ : Sys).handle n := by
  rw [handle_mk, handle_mk, List.getElem?_set_ne hn]

/-- C4: for a handle `A` (slot `i`, empty or not) with `use_count() = c` and `get() = p`, the move
constructor `smart_ptr(smart_ptr<U>&&)` yields a handle `C` (the new slot) with `C.get() = p` and
`C.use_count() = c`, leaves `A.get()` null and `A.use_count() = 0`, and changes nothing in the
heap, so no `shared_count` changes its count. -/
theorem move_transfers (s : Sys) (i : Nat) (A : smart_ptr) (c : Int)
    (hA : s.handle i = some A) (hc : s.use_count i = some c) :
    ∃ s1 C, s.move i = some s1 ∧ s1.handle s.handles.length = some C ∧
      s1.get i = some 0 ∧ s1.use_count i = some 0 ∧
      C.get = A.get ∧ s1.use_count s.handles.length = some c ∧
      s1.heap = s.heap ∧ ∀ k, s1.heap.counts k = s.heap.counts k := by
  obtain ⟨l, m⟩ := s
  have hil : i < l.length := Sys.handle_lt hA
  rw [sys_use_count hA] at hc
  have hs1 : Sys.move ⟨l, m⟩ i = some ⟨l.set i (some (smart_ptr.ctor_move A).2)
      ++ [some (smart_ptr.ctor_move A).1], m⟩ := by
    simp [Sys.move, hA]
  have hlen : (l.set i (some (smart_ptr.ctor_move A).2)).length = l.length := List.length_set ..
  have hC : (⟨l.set i (some (smart_ptr.ctor_move A).2)
      ++ [some (smart_ptr.ctor_move A).1], m⟩ : Sys).handle l.length
      = some (smart_ptr.ctor_move A).1 := by
    have := handle_push_len (l.set i (some (smart_ptr.ctor_move A).2)) m
      (some (smart_ptr.ctor_move A).1)
    rwa [hlen] at this
  have hA1 : (⟨l.set i (some (smart_ptr.ctor_move A).2)
      ++ [some (smart_ptr.ctor_move A).1], m⟩ : Sys).handle i
      = some (smart_ptr.ctor_move A).2 := by
    rw [handle_push_lt _ (by rw [hlen]; exact hil), ← handle_mk _ m i]
    exact handle_set_self _ hil
  have h2 : (smart_ptr.ctor_move A).2.ptr_ = 0 := by
    by_cases hp : A.ptr_ = 0 <;> simp [smart_ptr.ctor_move, hp]
  have h1p : (smart_ptr.ctor_move A).1.ptr_ = A.ptr_ := by
    by_cases hp : A.ptr_ = 0 <;> simp [smart_ptr.ctor_move, hp]
  have h1u : (smart_ptr.ctor_move A).1.use_count m = some c := by
    by_cases hp : A.ptr_ = 0
    · rw [use_count_null hp] at hc
      rw [use_count_null (by rw [h1p]; exact hp)]
      exact hc
    · have : (smart_ptr.ctor_move A).1 = A := by simp [smart_ptr.ctor_move, hp]
      rw [this]
      exact hc
  refine ⟨_, _, hs1, hC, ?_, ?_, h1p, ?_, rfl, fun _ => rfl⟩
  · rw [sys_get hA1, h2]
  · rw [sys_use_count hA1]
    exact use_count_null h2
  · rw [sys_use_count hC]
    exact h1u

theorem move_transfers_witness :
    two_owners.handle 0 = some ⟨1, some 11⟩ ∧ two_owners.use_count 0 = some 2 ∧
    ∃ s1 C, two_owners.move 0 = some s1 ∧ s1.handle two_owners.handles.length = some C ∧
      s1.get 0 = some 0 ∧ s1.use_count 0 = some 0 ∧
      C.get = (⟨1, some 11⟩ : smart_ptr).get ∧
      s1.use_count two_owners.handles.length = some 2 ∧
      s1.heap = two_owners.heap ∧ ∀ k, s1.heap.counts k = two_owners.heap.counts k :=
  ⟨rfl, rfl, move_transfers two_owners 0 ⟨1, some 11⟩ 2 rfl rfl⟩

/-- C9: for two handles `A` (slot `i`) and `B` (slot `j`), `A.swap(B)` and the free function
`swap(A, B)` are defined and give the same state, in which `A` holds the former pair of `B` and
`B` the former pair of `A` (so `get()` and `use_count()` are exchanged), while the heap (every
count, the live values, the release log) and every other handle are unchanged. -/
theorem swap_exchanges (s : Sys) (i j : Nat) (A B : smart_ptr)
    (hA : s.handle i = some A) (hB : s.handle j = some B) :
    ∃ s1, s.swap i j = some s1 ∧ s.swap_free i j = some s1 ∧
      s1.handle i = some B ∧ s1.handle j = some A ∧
      s1.get i = s.get j ∧ s1.get j = s.get i ∧
      s1.use_count i = s.use_count j ∧ s1.use_count j = s.use_count i ∧
      s1.heap = s.heap ∧
      (∀ k, s1.heap.counts k = s.heap.counts k) ∧ s1.heap.alive = s.heap.alive ∧
      s1.handles.length = s.handles.length ∧
      ∀ n, n ≠ i → n ≠ j → s1.handle n = s.handle n := by
  obtain ⟨l, m⟩ := s
  have hil : i < l.length := Sys.handle_lt hA
  have hjl : j < l.length := Sys.handle_lt hB
  have hs1 : Sys.swap ⟨l, m⟩ i j = some ⟨(l.set i (some B)).set j (some A), m⟩ := by
    simp [Sys.swap, hA, hB, smart_ptr.swap]
  have hs2 : Sys.swap_free ⟨l, m⟩ i j = some ⟨(l.set i (some B)).set j (some A), m⟩ := by
    simp [Sys.swap_free, hA, hB, Cpp.swap, smart_ptr.swap]
  have hj1 : (⟨(l.set i (some B)).set j (some A), m⟩ : Sys).handle j = some A :=
    handle_set_self _ (by rw [List.length_set]; exact hjl)
  have hi1 : (⟨(l.set i (some B)).set j (some A), m⟩ : Sys).handle i = some B := by
    by_cases hij : i = j
    · subst hij
      rw [hA] at hB
      rw [hj1, hB]
    · rw [handle_set_ne (m := m) _ (fun e => hij e.symm)]
      exact handle_set_self _ hil
  refine ⟨_, hs1, hs2, hi1, hj1, ?_, ?_, ?_, ?_, rfl, fun _ => rfl, rfl, ?_, ?_⟩
  · rw [sys_get hi1, sys_get hB]
  · rw [sys_get hj1, sys_get hA]
  · rw [sys_use_count hi1, sys_use_count hB]
  · rw [sys_use_count hj1, sys_use_count hA]
  · simp
  · intro n hni hnj
    rw [handle_set_ne (m := m) _ (fun e => hnj e.symm),
      handle_set_ne (m := m) _ (fun e => hni e.symm)]

theorem swap_exchanges_witness :
    three_handles.handle 0 = some ⟨1, some 11⟩ ∧ three_handles.handle 2 = some ⟨2, some 12⟩ ∧
    ∃ s1, three_handles.swap 0 2 = some s1 ∧ three_handles.swap_free 0 2 = some s1 ∧
      s1.handle 0 = some ⟨2, some 12⟩ ∧ s1.handle 2 = some ⟨1, some 11⟩ ∧
      s1.get 0 = three_handles.get 2 ∧ s1.get 2 = three_handles.get 0 ∧
      s1.use_count 0 = three_handles.use_count 2 ∧
      s1.use_count 2 = three_handles.use_count 0 ∧
      s1.heap = three_handles.heap ∧
      (∀ k, s1.heap.counts k = three_handles.heap.counts k) ∧
      s1.heap.alive = three_handles.heap.alive ∧
      s1.handles.length = three_handles.handles.length ∧
      ∀ n, n ≠ 0 → n ≠ 2 → s1.handle n = three_handles.handle n :=
  ⟨rfl, rfl, swap_exchanges three_handles 0 2 ⟨1, some 11⟩ ⟨2, some 12⟩ rfl rfl⟩

theorem one_owner_reachable : Reachable Op.fresh one_owner :=
  Reachable.step (.construct 1 11) Reachable.init (fun _ => rfl) rfl

theorem store_store_cancel {m : Heap} {k : Nat} {c : shared_count} (c1 : shared_count)
    (hc : m.counts k = some c) : (m.store k c1).store k c = m := by
  obtain ⟨f, a, r, d⟩ := m
  simp only [Heap.store, Function.update_idem]
  congr
  exact Function.update_eq_self_iff.2 hc.symm

theorem handle_drop_last {l : List (Option smart_ptr)} {m m1 : Heap} {i : Nat} {h : smart_ptr}
    (x y : Option smart_ptr) (hi : (⟨l, m⟩ : Sys).handle i = some h) :
    (⟨(l ++ [x]).set l.length y, m1⟩ : Sys).handle i = some h := by
  have hil : i < l.length := Sys.handle_lt hi
  rw [handle_set_ne (m := m1) _ (Nat.ne_of_gt hil)]
  exact handle_push_old _ hi

theorem destroy_eq {s : Sys} {i : Nat} {h : smart_ptr} {m1 : Heap}
    (hi : s.handle i = some h) (hd : smart_ptr.dtor s.heap h = some m1) :
    s.destroy i = some ⟨s.handles.set i none, m1⟩ := by
  simp [Sys.destroy, hi, hd]

/-- The claim C5 fails on the code: a failed `dynamic_pointer_cast` on the sole owner of a value
(count 1) leaves the count at 1, not 2, and the constructor called with a null address neither
increments the counter nor stores the counter's address. -/
theorem cast_increment_counterexample :
    one_owner.use_count 0 = some 1 ∧
    ¬ (∃ s1, one_owner.apply (.dynamic_pointer_cast false 0) = some s1 ∧
        s1.use_count 0 = some (1 + 1)) ∧
    ¬ (∃ h m1, smart_ptr.ctor_alias one_owner.heap ⟨1, some 11⟩ 0 = some (h, m1) ∧
        m1.counts 11 = some ⟨1 + 1⟩ ∧ h.shared_count_ = some 11) := by
  refine ⟨rfl, ?_, ?_⟩
  · rintro ⟨s1, h1, h2⟩
    have e : one_owner.apply (.dynamic_pointer_cast false 0)
        = some ⟨one_owner.handles ++ [some ⟨0, none⟩], one_owner.heap⟩ := rfl
    rw [e] at h1
    cases h1
    revert h2
    decide
  · rintro ⟨h, m1, h1, _, h3⟩
    rw [ctor_alias_null] at h1
    cases h1
    cases h3

/-- C5 as amended: for a source handle whose `shared_count_` references a live counter of
count `c`, the constructor `smart_ptr(const smart_ptr<U>& other, T* ptr)` with a non-null `ptr`
increments that counter exactly once and stores `(ptr, other's shared_count)`; with a null `ptr`
it changes nothing in the heap and stores a null address and no counter. In particular a failed
`dynamic_pointer_cast` on a non-empty source leaves the heap, and so the source's count, as it
was and returns a handle with a null address that references no counter. -/
theorem ctor_alias_increments (m : Heap) (other : smart_ptr) (ptr k : Nat) (c : shared_count)
    (hs : other.shared_count_ = some k) (hc : m.counts k = some c) :
    (ptr ≠ 0 → ∃ m1, smart_ptr.ctor_alias m other ptr = some (⟨ptr, other.shared_count_⟩, m1) ∧
        m1.counts k = some ⟨c.count_ + 1⟩ ∧ ∀ k1, k1 ≠ k → m1.counts k1 = m.counts k1) ∧
    (ptr = 0 → smart_ptr.ctor_alias m other ptr = some (⟨0, none⟩, m)) ∧
    (other.ptr_ ≠ 0 → dynamic_pointer_cast false m other = some (⟨0, none⟩, m) ∧
        other.use_count m = some c.count_) := by
  refine ⟨fun hp => ?_, fun hp => ?_, fun hp => ⟨rfl, use_count_nonnull hp hs hc⟩⟩
  · refine ⟨m.store k c.add_count, ?_, store_counts_same m k _, fun k1 hk1 =>
      store_counts_other m _ hk1⟩
    rw [ctor_alias_nonnull hp hs hc, hs]
  · subst hp
    rfl

theorem ctor_alias_increments_witness :
    (⟨1, some 11⟩ : smart_ptr).shared_count_ = some 11 ∧ one_owner.heap.counts 11 = some ⟨1⟩ ∧
    ((2 ≠ 0 → ∃ m1, smart_ptr.ctor_alias one_owner.heap ⟨1, some 11⟩ 2
          = some (⟨2, (⟨1, some 11⟩ : smart_ptr).shared_count_⟩, m1) ∧
        m1.counts 11 = some ⟨(⟨1⟩ : shared_count).count_ + 1⟩ ∧
        ∀ k1, k1 ≠ 11 → m1.counts k1 = one_owner.heap.counts k1) ∧
    (2 = 0 → smart_ptr.ctor_alias one_owner.heap ⟨1, some 11⟩ 2
        = some (⟨0, none⟩, one_owner.heap)) ∧
    ((⟨1, some 11⟩ : smart_ptr).ptr_ ≠ 0 →
        dynamic_pointer_cast false one_owner.heap ⟨1, some 11⟩
          = some (⟨0, none⟩, one_owner.heap) ∧
        (⟨1, some 11⟩ : smart_ptr).use_count one_owner.heap
          = some (⟨1⟩ : shared_count).count_)) :=
  ⟨rfl, rfl, ctor_alias_increments one_owner.heap ⟨1, some 11⟩ 2 11 ⟨1⟩ rfl rfl⟩

/-- C6: for a source `A` (slot `i`; non-empty in the claim, the proof needs no such
assumption) with `use_count() = c`, a `dynamic_pointer_cast`
whose run-time check fails is defined and returns a handle `D` (the new slot) with
`D.get()` null and `D.use_count() = 0`; the heap is unchanged, so `A.use_count()` is still `c`;
destroying `D` is defined and again leaves the heap unchanged: `A.use_count() = c`, no counter
is changed, nothing is released and the value of `A` is as alive as before. -/
theorem failed_downcast_is_empty (s : Sys) (i : Nat) (A : smart_ptr) (c : Int)
    (hA : s.handle i = some A) (hc : s.use_count i = some c) :
    ∃ s1, s.apply (.dynamic_pointer_cast false i) = some s1 ∧
      s1.get s.handles.length = some 0 ∧ s1.use_count s.handles.length = some 0 ∧
      s1.use_count i = some c ∧ s1.heap = s.heap ∧
      ∃ s2, s1.destroy s.handles.length = some s2 ∧
        s2.handle i = some A ∧ s2.use_count i = some c ∧ s2.heap = s.heap ∧
        s2.heap.alive A.ptr_ = s.heap.alive A.ptr_ ∧ s2.heap.released = s.heap.released ∧
        s2.heap.freed = s.heap.freed := by
  obtain ⟨l, m⟩ := s
  rw [sys_use_count hA] at hc
  have hs1 : Sys.apply ⟨l, m⟩ (.dynamic_pointer_cast false i)
      = some ⟨l ++ [some (⟨0, none⟩ : smart_ptr)], m⟩ :=
    cast_eq (dynamic_pointer_cast false) hA rfl
  have hD : (⟨l ++ [some (⟨0, none⟩ : smart_ptr)], m⟩ : Sys).handle l.length = some (⟨0, none⟩ : smart_ptr) :=
    handle_push_len _ _ _
  have hA1 : (⟨l ++ [some (⟨0, none⟩ : smart_ptr)], m⟩ : Sys).handle i = some A := handle_push_old _ hA
  have hs2 : Sys.destroy ⟨l ++ [some (⟨0, none⟩ : smart_ptr)], m⟩ l.length
      = some ⟨(l ++ [some (⟨0, none⟩ : smart_ptr)]).set l.length none, m⟩ :=
    destroy_eq hD (dtor_null rfl)
  have hA2 : (⟨(l ++ [some (⟨0, none⟩ : smart_ptr)]).set l.length none, m⟩ : Sys).handle i = some A :=
    handle_drop_last _ _ hA
  refine ⟨_, hs1, ?_, ?_, ?_, rfl, _, hs2, hA2, ?_, rfl, rfl, rfl, rfl⟩
  · rw [sys_get hD]
  · rw [sys_use_count hD]
    rfl
  · rw [sys_use_count hA1]
    exact hc
  · rw [sys_use_count hA2]
    exact hc

theorem failed_downcast_is_empty_witness :
    one_owner.handle 0 = some ⟨1, some 11⟩ ∧ one_owner.use_count 0 = some 1 ∧
    ∃ s1, one_owner.apply (.dynamic_pointer_cast false 0) = some s1 ∧
      s1.get one_owner.handles.length = some 0 ∧
      s1.use_count one_owner.handles.length = some 0 ∧
      s1.use_count 0 = some 1 ∧ s1.heap = one_owner.heap ∧
      ∃ s2, s1.destroy one_owner.handles.length = some s2 ∧
        s2.handle 0 = some ⟨1, some 11⟩ ∧ s2.use_count 0 = some 1 ∧ s2.heap = one_owner.heap ∧
        s2.heap.alive (⟨1, some 11⟩ : smart_ptr).ptr_
          = one_owner.heap.alive (⟨1, some 11⟩ : smart_ptr).ptr_ ∧
        s2.heap.released = one_owner.heap.released ∧
        s2.heap.freed = one_owner.heap.freed :=
  ⟨rfl, rfl, failed_downcast_is_empty one_owner 0 ⟨1, some 11⟩ 1 rfl rfl⟩

/-- What a successful cast does to the state, for any cast function that hands the source's own
address to the constructor with a replacement address. -/
theorem cast_success (s : Sys) (i : Nat) (A : smart_ptr) (c : Int)
    (f : Heap → smart_ptr → Option (smart_ptr × Heap))
    (hf : f s.heap A = smart_ptr.ctor_alias s.heap A A.ptr_)
    (hA : s.handle i = some A) (hne : A.ptr_ ≠ 0) (hc : s.use_count i = some c) :
    ∃ s1 D, s.cast f i = some s1 ∧ s1.handle s.handles.length = some D ∧
      D.get ≠ 0 ∧ D.get = A.get ∧ s1.use_count s.handles.length = some (c + 1) ∧
      s1.use_count i = some (c + 1) ∧
      D.shared_count_ = A.shared_count_ ∧
      (1 ≤ c → ∃ s2, s1.destroy s.handles.length = some s2 ∧ s2.handle i = some A ∧
        s2.use_count i = some c ∧ s2.heap = s.heap) := by
  obtain ⟨l, m⟩ := s
  rw [sys_use_count hA] at hc
  obtain ⟨k, cc, e1, e2, e3⟩ := use_count_cases hc hne
  have hcast : f m A = some (⟨A.ptr_, some k⟩, m.store k cc.add_count) := by
    rw [hf]
    exact ctor_alias_nonnull hne e1 e2
  have hs1 : Sys.cast f ⟨l, m⟩ i
      = some ⟨l ++ [some ⟨A.ptr_, some k⟩], m.store k cc.add_count⟩ := cast_eq f hA hcast
  have hA1 : (⟨l ++ [some ⟨A.ptr_, some k⟩], m.store k cc.add_count⟩ : Sys).handle i = some A :=
    handle_push_old _ hA
  have hD : (⟨l ++ [some ⟨A.ptr_, some k⟩], m.store k cc.add_count⟩ : Sys).handle l.length
      = some ⟨A.ptr_, some k⟩ := handle_push_len _ _ _
  refine ⟨_, ⟨A.ptr_, some k⟩, hs1, hD, hne, rfl, ?_, ?_, e1.symm, fun h1 => ?_⟩
  · rw [sys_use_count hD, use_count_nonnull (h := ⟨A.ptr_, some k⟩) hne rfl
      (store_counts_same m k _)]
    simp [shared_count.add_count, e3]
  · rw [sys_use_count hA1, use_count_nonnull hne e1 (store_counts_same m k _)]
    simp [shared_count.add_count, e3]
  · have hd : smart_ptr.dtor (m.store k cc.add_count) ⟨A.ptr_, some k⟩ = some m := by
      rw [dtor_more (h := ⟨A.ptr_, some k⟩) hne rfl (store_counts_same m k _)
        (by simp only [shared_count.add_count]; omega)]
      have : (⟨cc.add_count.count_ - 1⟩ : shared_count) = cc := by
        cases cc
        simp [shared_count.add_count]
      rw [this, store_store_cancel _ e2]
    have hs2 := destroy_eq hD hd
    have hA2 : (⟨(l ++ [some (⟨A.ptr_, some k⟩ : smart_ptr)]).set l.length none, m⟩ : Sys).handle i
        = some A := handle_drop_last _ _ hA
    refine ⟨_, hs2, hA2, ?_, rfl⟩
    rw [sys_use_count hA2]
    exact hc

/-- C7: for a non-empty source `A` (slot `i`) with `use_count() = c` and each of
`static_pointer_cast`, `dynamic_pointer_cast` with a successful check, `reinterpret_pointer_cast`
and `const_pointer_cast`, the cast is defined and its result `D` (the new slot) has a non-null
address, `D.use_count() = A.use_count() = c + 1` and the `shared_count` of `A`; if `c >= 1`,
destroying `D` is defined and restores the heap of before the cast: `A.use_count() = c` again,
and neither the value nor the counter is released. -/
theorem successful_cast_co_owns (s : Sys) (i : Nat) (A : smart_ptr) (c : Int) (op : Op)
    (hop : op ∈ [Op.static_pointer_cast i, Op.dynamic_pointer_cast true i,
      Op.reinterpret_pointer_cast i, Op.const_pointer_cast i])
    (hA : s.handle i = some A) (hne : A.ptr_ ≠ 0) (hc : s.use_count i = some c) :
    ∃ s1 D, s.apply op = some s1 ∧ s1.handle s.handles.length = some D ∧
      D.get ≠ 0 ∧ D.get = A.get ∧ s1.use_count s.handles.length = some (c + 1) ∧
      s1.use_count i = some (c + 1) ∧
      D.shared_count_ = A.shared_count_ ∧
      (1 ≤ c → ∃ s2, s1.destroy s.handles.length = some s2 ∧ s2.handle i = some A ∧
        s2.use_count i = some c ∧ s2.heap = s.heap) := by
  simp only [List.mem_cons, List.mem_singleton, List.not_mem_nil, or_false] at hop
  rcases hop with rfl | rfl | rfl | rfl
  · exact cast_success s i A c static_pointer_cast rfl hA hne hc
  · exact cast_success s i A c (dynamic_pointer_cast true) rfl hA hne hc
  · exact cast_success s i A c reinterpret_pointer_cast rfl hA hne hc
  · exact cast_success s i A c const_pointer_cast rfl hA hne hc

theorem successful_cast_co_owns_witness :
    Op.dynamic_pointer_cast true 0 ∈ [Op.static_pointer_cast 0, Op.dynamic_pointer_cast true 0,
      Op.reinterpret_pointer_cast 0, Op.const_pointer_cast 0] ∧
    one_owner.handle 0 = some ⟨1, some 11⟩ ∧ (⟨1, some 11⟩ : smart_ptr).ptr_ ≠ 0 ∧
    one_owner.use_count 0 = some 1 ∧
    ∃ s1 D, one_owner.apply (.dynamic_pointer_cast true 0) = some s1 ∧
      s1.handle one_owner.handles.length = some D ∧
      D.get ≠ 0 ∧ D.get = (⟨1, some 11⟩ : smart_ptr).get ∧
      s1.use_count one_owner.handles.length = some (1 + 1) ∧
      s1.use_count 0 = some (1 + 1) ∧
      D.shared_count_ = (⟨1, some 11⟩ : smart_ptr).shared_count_ ∧
      ((1 : Int) ≤ 1 → ∃ s2, s1.destroy one_owner.handles.length = some s2 ∧
        s2.handle 0 = some ⟨1, some 11⟩ ∧ s2.use_count 0 = some 1 ∧ s2.heap = one_owner.heap) :=
  ⟨by decide, rfl, by decide, rfl,
    successful_cast_co_owns one_owner 0 ⟨1, some 11⟩ 1 (.dynamic_pointer_cast true 0)
      (by decide) rfl (by decide) rfl⟩

/-! ## A group of co-owners: construction, copies, destruction in any order -/

theorem Group.perm {s : Sys} {V k : Nat} {L L1 : List Nat} (hG : Group s V k L)
    (hp : L.Perm L1) : Group s V k L1 :=
  ⟨hp.nodup_iff.1 hG.nodup, fun x hx => hG.handle x (hp.mem_iff.2 hx),
   by rw [← hp.length_eq]; exact hG.count, hG.alive⟩

theorem Group.use_count {s : Sys} {V k : Nat} {L : List Nat} (hG : Group s V k L) (hV : V ≠ 0)
    {x : Nat} (hx : x ∈ L) : s.use_count x = some (L.length : Int) := by
  rw [sys_use_count (hG.handle x hx)]
  exact use_count_nonnull (h := ⟨V, some k⟩) hV rfl hG.count

theorem Group.of_construct (s : Sys) {V k : Nat} (hV : V ≠ 0) (hk0 : k ≠ 0)
    (hk : s.heap.counts k = none) :
    ∃ s1, s.apply (.construct V k) = some s1 ∧ Group s1 V k [s.handles.length] ∧
      s1.handles.length = s.handles.length + 1 ∧
      s1.heap.released = s.heap.released ∧ s1.heap.freed = s.heap.freed := by
  obtain ⟨l, m⟩ := s
  have hs1 : Sys.apply ⟨l, m⟩ (.construct V k) = some ⟨l ++ [some ⟨V, some k⟩],
      { m.new_value V with
        counts := Function.update m.counts k (some shared_count.ctor) }⟩ := by
    have hk1 : (m.new_value V).counts k = none := hk
    simp [Sys.apply, Sys.construct, smart_ptr.ctor, hV, Heap.new_shared_count, hk0, hk1]
    rfl
  refine ⟨_, hs1, ⟨List.nodup_singleton _, fun x hx => ?_, ?_, ?_⟩, by simp, rfl, rfl⟩
  · rw [List.mem_singleton.1 hx]
    exact handle_push_len _ _ _
  · simp [shared_count.ctor]
  · simp [Heap.new_value]

theorem Group.add_copy {s : Sys} {V k : Nat} {L : List Nat} (hG : Group s V k L) (hV : V ≠ 0)
    {a : Nat} (ha : a ∈ L) :
    ∃ s1, s.apply (.copy a) = some s1 ∧ Group s1 V k (L ++ [s.handles.length]) ∧
      s1.handles.length = s.handles.length + 1 ∧
      s1.heap.released = s.heap.released ∧ s1.heap.freed = s.heap.freed := by
  obtain ⟨l, m⟩ := s
  have hA := hG.handle a ha
  have hcopy : smart_ptr.ctor_copy m ⟨V, some k⟩
      = some (⟨V, some k⟩, m.store k (shared_count.add_count ⟨(L.length : Int)⟩)) := by
    rw [ctor_copy_eq]
    exact ctor_alias_nonnull (o := ⟨V, some k⟩) hV rfl hG.count
  have hs1 : Sys.apply ⟨l, m⟩ (.copy a) = some ⟨l ++ [some ⟨V, some k⟩],
      m.store k (shared_count.add_count ⟨(L.length : Int)⟩)⟩ :=
    cast_eq (fun m o => smart_ptr.ctor_copy m o) hA hcopy
  refine ⟨_, hs1, ⟨?_, fun x hx => ?_, ?_, hG.alive⟩, by simp, rfl, rfl⟩
  · rw [List.nodup_append]
    refine ⟨hG.nodup, List.nodup_singleton _, ?_⟩
    intro x hx hx1
    have h1 := Sys.handle_lt (hG.handle x hx)
    rw [List.mem_singleton.1 hx1] at h1
    exact Nat.lt_irrefl _ h1
  · rcases List.mem_append.1 hx with h1 | h1
    · exact handle_push_old _ (hG.handle x h1)
    · rw [List.mem_singleton.1 h1]
      exact handle_push_len _ _ _
  · rw [store_counts_same]
    simp [shared_count.add_count]

theorem Group.destroy_more {s : Sys} {V k x : Nat} {L : List Nat} (hG : Group s V k (x :: L))
    (hV : V ≠ 0) (hL : L ≠ []) :
    ∃ s1, s.apply (.destroy x) = some s1 ∧ Group s1 V k L ∧
      s1.heap.released = s.heap.released ∧ s1.heap.freed = s.heap.freed := by
  obtain ⟨l, m⟩ := s
  have hX := hG.handle x (List.mem_cons_self _ _)
  have hlen : 0 < L.length := List.length_pos.2 hL
  have hd : smart_ptr.dtor m ⟨V, some k⟩
      = some (m.store k ⟨((x :: L).length : Int) - 1⟩) :=
    dtor_more (h := ⟨V, some k⟩) hV rfl hG.count (by
      show (((x :: L).length : Nat) : Int) ≠ 1
      rw [List.length_cons]
      omega)
  have hs1 : Sys.apply ⟨l, m⟩ (.destroy x) = some ⟨l.set x none,
      m.store k ⟨((x :: L).length : Int) - 1⟩⟩ := destroy_eq hX hd
  have hnd := List.nodup_cons.1 hG.nodup
  refine ⟨_, hs1, ⟨hnd.2, fun y hy => ?_, ?_, hG.alive⟩, rfl, rfl⟩
  · have hne : x ≠ y := fun e => hnd.1 (e ▸ hy)
    rw [handle_set_ne (m := m) _ hne]
    exact hG.handle y (List.mem_cons_of_mem _ hy)
  · rw [store_counts_same]
    simp

theorem Group.destroy_last {s : Sys} {V k x : Nat} (hG : Group s V k [x]) (hV : V ≠ 0) :
    ∃ s1, s.apply (.destroy x) = some s1 ∧ s1.heap.alive V = false ∧
      s1.heap.counts k = none ∧
      s1.heap.released = s.heap.released ++ [V] ∧ s1.heap.freed = s.heap.freed ++ [k] := by
  obtain ⟨l, m⟩ := s
  have hX := hG.handle x (List.mem_cons_self _ _)
  have hd := dtor_last (h := ⟨V, some k⟩) hV rfl hG.count (by simp)
  have hs1 := destroy_eq hX hd
  refine ⟨_, hs1, ?_, ?_, rfl, rfl⟩
  · simp [Heap.delete_count, Heap.delete_value]
  · simp [Heap.delete_count]

theorem run_cons (s : Sys) (op : Op) (ops : List Op) :
    s.run (op :: ops) = (s.apply op).bind fun s1 => s1.run ops := rfl

theorem Group.copies {V k base : Nat} (hV : V ≠ 0) :
    ∀ (n c : Nat) (s : Sys), Group s V k (List.range' base (c + 1)) →
      s.handles.length = base + (c + 1) →
      ∃ s1, s.run (List.replicate n (Op.copy base)) = some s1 ∧
        Group s1 V k (List.range' base (c + n + 1)) ∧
        s1.heap.released = s.heap.released ∧ s1.heap.freed = s.heap.freed := by
  intro n
  induction n with
  | zero => exact fun c s hG _ => ⟨s, rfl, hG, rfl, rfl⟩
  | succ n ih =>
    intro c s hG hlen
    have hb : base ∈ List.range' base (c + 1) := by simp
    obtain ⟨s1, h1, hG1, hlen1, hr1, hf1⟩ := hG.add_copy hV hb
    rw [hlen, ← List.range'_1_concat] at hG1
    obtain ⟨s2, h2, hG2, hr2, hf2⟩ := ih (c + 1) s1 hG1 (by omega)
    refine ⟨s2, ?_, ?_, hr2.trans hr1, hf2.trans hf1⟩
    · rw [List.replicate_succ, run_cons, h1]
      exact h2
    · have : c + (n + 1) + 1 = c + 1 + n + 1 := by omega
      rw [this]
      exact hG2

theorem Group.destroys {V k base : Nat} (hV : V ≠ 0) :
    ∀ (o : List Nat) (s : Sys), o ≠ [] → Group s V k (o.map (base + ·)) →
      (∀ j, j < o.length →
        ∃ sj, s.run ((o.take j).map fun x => Op.destroy (base + x)) = some sj ∧
          Group sj V k ((o.drop j).map (base + ·)) ∧
          sj.heap.released = s.heap.released ∧ sj.heap.freed = s.heap.freed) ∧
      ∃ sf, s.run (o.map fun x => Op.destroy (base + x)) = some sf ∧
        sf.heap.alive V = false ∧ sf.heap.counts k = none ∧
        sf.heap.released = s.heap.released ++ [V] ∧ sf.heap.freed = s.heap.freed ++ [k] := by
  intro o
  induction o with
  | nil => exact fun s h _ => absurd rfl h
  | cons x o ih =>
    intro s _ hG
    by_cases ho : o = []
    · subst ho
      constructor
      · intro j hj
        have : j = 0 := by simpa using hj
        subst this
        exact ⟨s, rfl, hG, rfl, rfl⟩
      · obtain ⟨s1, h1, ha, hc, hr, hf⟩ := Group.destroy_last (x := base + x) hG hV
        exact ⟨s1, by simp [Sys.run, h1], ha, hc, hr, hf⟩
    · have hne : o.map (base + ·) ≠ [] := by simpa using ho
      obtain ⟨s1, h1, hG1, hr1, hf1⟩ := Group.destroy_more (x := base + x) hG hV hne
      obtain ⟨ihp, sf, hsf, ha, hc, hr, hf⟩ := ih s1 ho hG1
      constructor
      · intro j hj
        cases j with
        | zero => exact ⟨s, rfl, hG, rfl, rfl⟩
        | succ j =>
          obtain ⟨sj, hsj, hGj, hrj, hfj⟩ := ihp j (by simpa using hj)
          refine ⟨sj, ?_, hGj, hrj.trans hr1, hfj.trans hf1⟩
          rw [List.take_succ_cons, List.map_cons, run_cons, h1]
          exact hsj
      · refine ⟨sf, ?_, ha, hc, by rw [hr, hr1], by rw [hf, hf1]⟩
        rw [List.map_cons, run_cons, h1]
        exact hsf

/-- Exactly-once release for co-owners made by the template constructor of lines 147-156 (the
copies are handles of another type than their source): for a non-null address `V` given to
`smart_ptr(T*)` (the allocator answering the counter address `k`) followed by `n` such
constructions from that owner, the `n + 1` handles can
be destroyed in any order `order` (a permutation of their indices `0..n`): every operation is
defined; after each of the first `j <= n` destructions `V` is still alive, nothing has been
released, and every remaining handle has `use_count()` equal to the `n + 1 - j` handles
remaining; the last destruction releases `V` and its `shared_count`, each exactly once (the
release logs grow by exactly that one entry). -/
theorem exactly_once_release_converting (s : Sys) (V k n : Nat) (order : List Nat)
    (hV : V ≠ 0) (hk0 : k ≠ 0) (hk : s.heap.counts k = none)
    (hperm : order.Perm (List.range (n + 1))) :
    ∃ s0, s.run (Op.construct V k :: List.replicate n (Op.copy s.handles.length)) = some s0 ∧
      (∀ j, j ≤ n →
        ∃ sj, s0.run ((order.take j).map fun x => Op.destroy (s.handles.length + x)) = some sj ∧
          sj.heap.alive V = true ∧ sj.heap.counts k = some ⟨((n + 1 - j : Nat) : Int)⟩ ∧
          sj.heap.released = s.heap.released ∧ sj.heap.freed = s.heap.freed ∧
          ∀ x ∈ order.drop j,
            sj.use_count (s.handles.length + x) = some ((n + 1 - j : Nat) : Int)) ∧
      ∃ sf, s0.run (order.map fun x => Op.destroy (s.handles.length + x)) = some sf ∧
        sf.heap.alive V = false ∧ sf.heap.counts k = none ∧
        sf.heap.released = s.heap.released ++ [V] ∧ sf.heap.freed = s.heap.freed ++ [k] := by
  obtain ⟨s1, h1, hG1, hlen1, hr1, hf1⟩ := Group.of_construct s hV hk0 hk
  have hG1a : Group s1 V k (List.range' s.handles.length (0 + 1)) := by
    simpa [List.range'] using hG1
  obtain ⟨s0, h0, hG0, hr0, hf0⟩ :=
    Group.copies hV n 0 s1 hG1a (by omega)
  have hlen : order.length = n + 1 := by rw [hperm.length_eq, List.length_range]
  have hne : order ≠ [] := by
    intro e
    rw [e] at hlen
    simp at hlen
  have hmap : (order.map (s.handles.length + ·)).Perm (List.range' s.handles.length (0 + n + 1)) := by
    have e : List.range' s.handles.length (0 + n + 1)
        = (List.range (n + 1)).map (s.handles.length + ·) := by
      rw [Nat.zero_add, List.range'_eq_map_range]
    rw [e]
    exact hperm.map _
  obtain ⟨hpre, sf, hsf, ha, hc, hr, hf⟩ :=
    Group.destroys hV order s0 hne (hG0.perm hmap.symm)
  refine ⟨s0, ?_, fun j hj => ?_, sf, hsf, ha, hc, by rw [hr, hr0, hr1], by rw [hf, hf0, hf1]⟩
  · rw [run_cons, h1]
    exact h0
  · obtain ⟨sj, hsj, hGj, hrj, hfj⟩ := hpre j (by omega)
    have hl : ((order.drop j).map (s.handles.length + ·)).length = n + 1 - j := by
      rw [List.length_map, List.length_drop, hlen]
    refine ⟨sj, hsj, hGj.alive, ?_, by rw [hrj, hr0, hr1], by rw [hfj, hf0, hf1], fun x hx => ?_⟩
    · rw [← hl]
      exact hGj.count
    · rw [← hl]
      exact hGj.use_count hV (List.mem_map_of_mem _ hx)

theorem exactly_once_release_converting_witness :
    (1 : Nat) ≠ 0 ∧ (11 : Nat) ≠ 0 ∧ Sys.empty.heap.counts 11 = none ∧
    [0, 1].Perm (List.range (1 + 1)) ∧
    ∃ s0, Sys.empty.run (Op.construct 1 11 :: List.replicate 1 (Op.copy Sys.empty.handles.length))
        = some s0 ∧
      (∀ j, j ≤ 1 →
        ∃ sj, s0.run (([0, 1].take j).map fun x => Op.destroy (Sys.empty.handles.length + x))
            = some sj ∧
          sj.heap.alive 1 = true ∧ sj.heap.counts 11 = some ⟨((1 + 1 - j : Nat) : Int)⟩ ∧
          sj.heap.released = Sys.empty.heap.released ∧ sj.heap.freed = Sys.empty.heap.freed ∧
          ∀ x ∈ [0, 1].drop j,
            sj.use_count (Sys.empty.handles.length + x) = some ((1 + 1 - j : Nat) : Int)) ∧
      ∃ sf, s0.run ([0, 1].map fun x => Op.destroy (Sys.empty.handles.length + x)) = some sf ∧
        sf.heap.alive 1 = false ∧ sf.heap.counts 11 = none ∧
        sf.heap.released = Sys.empty.heap.released ++ [1] ∧
        sf.heap.freed = Sys.empty.heap.freed ++ [11] :=
  ⟨by decide, by decide, rfl, by decide,
    exactly_once_release_converting Sys.empty 1 11 1 [0, 1] (by decide) (by decide) rfl (by decide)⟩

/-- C2 fails on the code, for `n = 1`. Owner `x0` is constructed from the value at 1 and `x1` is
made from it by copy construction, `smart_ptr<T> x1(x0)`: the copy is built by the implicitly
declared copy constructor, without `add_count`, so both handles report `use_count() = 1`, not
the 2 handles remaining. Destroying either handle first takes the count to 0 and releases the
value and its `shared_count` at once, while the other handle is live and still holds the
address; the destructor of that other handle (and its `use_count()`) then reads the deleted
counter, which is the error branch. -/
theorem copy_then_destroy_releases_early :
    ∃ s0, Sys.empty.run [.construct 1 11, .copy_same 0] = some s0 ∧
      Reachable Op.fresh s0 ∧
      s0.handle 0 = some ⟨1, some 11⟩ ∧ s0.handle 1 = some ⟨1, some 11⟩ ∧
      s0.use_count 0 = some 1 ∧ s0.use_count 1 = some 1 ∧ s0.use_count 1 ≠ some 2 ∧
      (∃ s1, s0.destroy 0 = some s1 ∧
        s1.handle 1 = some ⟨1, some 11⟩ ∧ s1.heap.alive 1 = false ∧ s1.heap.counts 11 = none ∧
        s1.heap.released = [1] ∧ s1.heap.freed = [11] ∧
        s1.use_count 1 = none ∧ s1.destroy 1 = none) ∧
      (∃ s1, s0.destroy 1 = some s1 ∧
        s1.handle 0 = some ⟨1, some 11⟩ ∧ s1.heap.alive 1 = false ∧ s1.heap.counts 11 = none ∧
        s1.heap.released = [1] ∧ s1.heap.freed = [11] ∧
        s1.use_count 0 = none ∧ s1.destroy 0 = none) := by
  have r : Reachable Op.fresh
      ((Sys.empty.run [.construct 1 11, .copy_same 0]).getD Sys.empty) :=
    Reachable.step (.copy_same 0)
      (Reachable.step (.construct 1 11) Reachable.init (fun _ => rfl) rfl) trivial rfl
  exact ⟨_, rfl, r, rfl, rfl, rfl, rfl, by decide,
    ⟨_, rfl, rfl, rfl, rfl, rfl, rfl, rfl, rfl⟩, ⟨_, rfl, rfl, rfl, rfl, rfl, rfl, rfl, rfl⟩⟩

/-! ## Assignment -/

/-- C8 fails on the code. With `x0` the sole owner of the value at 1 (`use_count() = 1`) and `x1`
the sole owner of the value at 2, the statement `x1 = x0` is defined; afterwards
`x1.get() = x0.get()` and what `x1` owned is released (value 2, counter 12), but the by-value
parameter was built by the implicitly declared copy constructor, without `add_count`: both
`use_count()` are 1, not `c + 1 = 2`, with two live owners. Destroying `x0` then releases the
value at 1 while `x1` still holds it, and the destructor of `x1` reads the deleted counter.
With co-owners (`two_owners`, count 2) the statement `x0 = x1` takes the count to 1. -/
theorem assign_skips_increment :
    (∃ s s1, Sys.empty.run [.construct 1 11, .construct 2 12] = some s ∧
      Reachable Op.fresh s ∧ s.use_count 0 = some 1 ∧ s.use_count 1 = some 1 ∧
      s.copy_assign 1 0 = some s1 ∧
      s1.get 1 = some 1 ∧ s1.get 0 = some 1 ∧
      s1.use_count 0 = some 1 ∧ s1.use_count 1 = some 1 ∧ s1.use_count 1 ≠ some (1 + 1) ∧
      s1.heap.counts 11 = some ⟨1⟩ ∧ s1.owners 11 = 2 ∧
      s1.heap.released = [2] ∧ s1.heap.freed = [12] ∧
      (s1.destroy 0).map (fun s2 => (s2.handle 1, s2.heap.alive 1, s2.heap.released))
        = some (some ⟨1, some 11⟩, false, [2, 1]) ∧
      (s1.destroy 0).bind (fun s2 => s2.use_count 1) = none ∧
      (s1.destroy 0).bind (fun s2 => s2.destroy 1) = none) ∧
    two_owners.use_count 1 = some 2 ∧
    (two_owners.copy_assign 0 1).bind (fun s1 => s1.use_count 0) = some 1 ∧
    (two_owners.copy_assign 0 1).bind (fun s1 => s1.heap.counts 11) = some ⟨1⟩ := by
  have r : Reachable Op.fresh
      ((Sys.empty.run [.construct 1 11, .construct 2 12]).getD Sys.empty) :=
    Reachable.step (.construct 2 12)
      (Reachable.step (.construct 1 11) Reachable.init (fun _ => rfl) rfl) (fun _ => rfl) rfl
  exact ⟨⟨_, _, rfl, r, rfl, rfl, rfl, rfl, rfl, rfl, rfl, by decide, rfl, by decide, rfl, rfl,
    rfl, rfl, rfl⟩, rfl, rfl, rfl⟩

/-! ## The invariant of the values -/

theorem VInv.val_empty : VInv Sys.empty :=
  ⟨fun h hm => by simp [Sys.empty] at hm, fun h1 _ hm => by simp [Sys.empty] at hm⟩

/-- The invariant of the values reads the handles only through the set of non-empty ones, and
the heap only through the live values. -/
theorem VInv.of_subset {l l1 : List (Option smart_ptr)} {m m1 : Heap} (hV : VInv ⟨l, m⟩)
    (hsub : ∀ h, some h ∈ l1 → h.ptr_ ≠ 0 → some h ∈ l) (ha : m1.alive = m.alive) :
    VInv ⟨l1, m1⟩ :=
  ⟨fun h hm hp => by
     have := hV.val_alive h (hsub h hm hp) hp
     simpa [ha] using this,
   fun h1 h2 hm1 hm2 hp1 hp2 => hV.same h1 h2 (hsub h1 hm1 hp1) (hsub h2 hm2 hp2) hp1 hp2⟩

theorem VInv.val_cast {s s1 : Sys} {i : Nat} (g : smart_ptr → Nat) (hV : VInv s)
    (hg : ∀ o, s.handle i = some o → g o = 0 ∨ g o = o.ptr_)
    (hs : s.cast (fun m o => smart_ptr.ctor_alias m o (g o)) i = some s1) : VInv s1 := by
  obtain ⟨l, m⟩ := s
  unfold Sys.cast at hs
  cases ho : Sys.handle ⟨l, m⟩ i with
  | none => simp [ho] at hs
  | some other =>
    simp only [ho] at hs
    cases hc : smart_ptr.ctor_alias m other (g other) with
    | none => simp [hc] at hs
    | some r =>
      obtain ⟨h, m1⟩ := r
      simp only [hc, Option.some.injEq] at hs
      subst hs
      have hmo := Sys.handle_mem ho
      rcases ctor_alias_cases hc with ⟨_, rfl, rfl⟩ | ⟨hp, k, c, e1, _, rfl, rfl⟩
      · refine hV.of_subset (fun h hm hp => ?_) rfl
        rcases List.mem_append.1 hm with h1 | h1
        · exact h1
        · simp at h1
          subst h1
          exact absurd rfl hp
      · refine hV.of_subset (fun h hm hp1 => ?_) rfl
        rcases List.mem_append.1 hm with h1 | h1
        · exact h1
        · simp at h1
          subst h1
          rcases hg other ho with h0 | h0
          · exact absurd h0 hp
          · have : (⟨g other, some k⟩ : smart_ptr) = other := by
              cases other
              simp only [smart_ptr.mk.injEq]
              exact ⟨h0, e1.symm⟩
            rw [this]
            exact hmo

theorem VInv.val_construct {s s1 : Sys} {p k : Nat} (hI : Inv s) (hV : VInv s)
    (hf : p ≠ 0 → s.heap.alive p = false) (hs : s.construct p k = some s1) : VInv s1 := by
  obtain ⟨l, m⟩ := s
  unfold Sys.construct at hs
  by_cases hp : p = 0
  · subst hp
    simp [smart_ptr.ctor] at hs
    subst hs
    refine hV.of_subset (fun h hm hp => ?_) rfl
    rcases List.mem_append.1 hm with h1 | h1
    · exact h1
    · simp at h1
      subst h1
      exact absurd rfl hp
  · by_cases hk : k ≠ 0 ∧ m.counts k = none
    · simp [smart_ptr.ctor, hp, Heap.new_shared_count, Heap.new_value, hk] at hs
      subst hs
      have hfresh := hf hp
      have hold_ptr : ∀ h, some h ∈ l → h.ptr_ ≠ 0 → h.ptr_ ≠ p := by
        intro h hm hp1 e
        have := hV.val_alive h hm hp1
        rw [e] at this
        simp only at hfresh
        rw [hfresh] at this
        cases this
      have hold_sc : ∀ h, some h ∈ l → h.ptr_ ≠ 0 → h.shared_count_ ≠ some k := by
        intro h hm hp1 e
        obtain ⟨k1, c1, e1, e2⟩ := hI.live h hm hp1
        rw [e] at e1
        cases e1
        simp only at e2
        rw [hk.2] at e2
        cases e2
      refine ⟨fun h hm hp1 => ?_, fun h1 h2 hm1 hm2 hp1 hp2 => ?_⟩
      · rcases List.mem_append.1 hm with h1 | h1
        · have := hV.val_alive h h1 hp1
          simp only at this ⊢
          rw [Function.update_noteq (hold_ptr h h1 hp1)]
          exact this
        · simp at h1
          subst h1
          simp
      · rcases List.mem_append.1 hm1 with a1 | a1 <;> rcases List.mem_append.1 hm2 with a2 | a2
        · exact hV.same h1 h2 a1 a2 hp1 hp2
        · simp at a2
          subst a2
          constructor
          · intro e
            exact absurd e (hold_ptr h1 a1 hp1)
          · intro e
            exact absurd e (hold_sc h1 a1 hp1)
        · simp at a1
          subst a1
          constructor
          · intro e
            exact absurd e.symm (hold_ptr h2 a2 hp2)
          · intro e
            exact absurd e.symm (hold_sc h2 a2 hp2)
        · simp at a1 a2
          subst a1 a2
          simp
    · simp [smart_ptr.ctor, hp, Heap.new_shared_count, Heap.new_value, hk] at hs

theorem VInv.val_move {s s1 : Sys} {i : Nat} (hV : VInv s) (hs : s.move i = some s1) : VInv s1 := by
  obtain ⟨l, m⟩ := s
  unfold Sys.move at hs
  cases ho : Sys.handle ⟨l, m⟩ i with
  | none => simp [ho] at hs
  | some other =>
    simp only [ho, Option.some.injEq] at hs
    subst hs
    have hmo := Sys.handle_mem ho
    refine hV.of_subset (fun h hm hp => ?_) rfl
    rcases List.mem_append.1 hm with h1 | h1
    · rcases List.mem_or_eq_of_mem_set h1 with h2 | h2
      · exact h2
      · have e : h = (smart_ptr.ctor_move other).2 := Option.some.inj h2
        by_cases hp0 : other.ptr_ = 0
        · have : (smart_ptr.ctor_move other).2 = other := by simp [smart_ptr.ctor_move, hp0]
          rw [e, this]
          exact hmo
        · have : (smart_ptr.ctor_move other).2.ptr_ = 0 := by simp [smart_ptr.ctor_move, hp0]
          rw [e] at hp
          exact absurd this hp
    · simp at h1
      by_cases hp0 : other.ptr_ = 0
      · have : (smart_ptr.ctor_move other).1.ptr_ = 0 := by simp [smart_ptr.ctor_move, hp0]
        rw [h1] at hp
        exact absurd this hp
      · have : (smart_ptr.ctor_move other).1 = other := by simp [smart_ptr.ctor_move, hp0]
        rw [h1, this]
        exact hmo

theorem VInv.val_swap_slots {l : List (Option smart_ptr)} {m : Heap} (hV : VInv ⟨l, m⟩)
    {i j : Nat} {a b : smart_ptr} (hi : l[i]? = some (some a)) (hj : l[j]? = some (some b)) :
    VInv ⟨(l.set i (some b)).set j (some a), m⟩ := by
  have hma : some a ∈ l := List.getElem?_mem hi
  have hmb : some b ∈ l := List.getElem?_mem hj
  refine hV.of_subset (fun h hm _ => ?_) rfl
  rcases List.mem_or_eq_of_mem_set hm with h1 | h1
  · rcases List.mem_or_eq_of_mem_set h1 with h2 | h2
    · exact h2
    · rw [h2]
      exact hmb
  · rw [h1]
    exact hma

theorem VInv.val_destroy {s s1 : Sys} {i : Nat} (hI : Inv s) (hV : VInv s)
    (hs : s.destroy i = some s1) : VInv s1 := by
  obtain ⟨l, m⟩ := s
  unfold Sys.destroy at hs
  cases ho : Sys.handle ⟨l, m⟩ i with
  | none => simp [ho] at hs
  | some h =>
    have hi := Sys.handle_eq_some.1 ho
    have hmh := Sys.handle_mem ho
    simp only [ho] at hs
    cases hd : smart_ptr.dtor m h with
    | none => simp [hd] at hs
    | some m1 =>
      simp only [hd, Option.some.injEq] at hs
      subst hs
      have hmem : ∀ x, some x ∈ l.set i none → some x ∈ l := by
        intro x hx
        rcases List.mem_or_eq_of_mem_set hx with h1 | h1
        · exact h1
        · cases h1
      rcases dtor_cases hd with ⟨_, rfl⟩ | ⟨hp, k, c, e1, e2, ⟨h1, rfl⟩ | ⟨_, rfl⟩⟩
      · exact hV.of_subset (fun x hx _ => hmem x hx) rfl
      · -- the last owner: no remaining handle holds the released address
        have hce := hI.count_eq k c e2
        simp only [Sys.owners] at hce
        have hcnt := countP_set_add (owns k) l i none (some h) hi
        rw [(owns_some k h).2 ⟨hp, e1⟩, owns_none] at hcnt
        simp only [Bool.toNat_true, Bool.toNat_false] at hcnt
        have hzero : (l.set i none).countP (owns k) = 0 := by omega
        have hne : ∀ x, some x ∈ l.set i none → x.ptr_ ≠ 0 → x.ptr_ ≠ h.ptr_ := by
          intro x hx hxp e
          have hsc := (hV.same x h (hmem x hx) hmh hxp hp).1 e
          rw [List.countP_eq_zero] at hzero
          exact hzero (some x) hx ((owns_some k x).2 ⟨hxp, hsc.trans e1⟩)
        refine ⟨fun x hx hxp => ?_, fun x1 x2 hm1 hm2 hp1 hp2 =>
          hV.same x1 x2 (hmem x1 hm1) (hmem x2 hm2) hp1 hp2⟩
        have := hV.val_alive x (hmem x hx) hxp
        simp only [Heap.delete_count, Heap.delete_value, Heap.store] at this ⊢
        rw [Function.update_noteq (hne x hx hxp)]
        exact this
      · exact hV.of_subset (fun x hx _ => hmem x hx) rfl

theorem VInv.val_swap {s s1 : Sys} {i j : Nat} (hV : VInv s) (hs : s.swap i j = some s1) :
    VInv s1 := by
  obtain ⟨l, m⟩ := s
  unfold Sys.swap at hs
  cases ha : Sys.handle ⟨l, m⟩ i with
  | none => simp [ha] at hs
  | some a =>
    cases hb : Sys.handle ⟨l, m⟩ j with
    | none => simp [ha, hb] at hs
    | some b =>
      simp only [ha, hb, Option.some.injEq] at hs
      subst hs
      exact hV.val_swap_slots (Sys.handle_eq_some.1 ha) (Sys.handle_eq_some.1 hb)

theorem VInv.val_copy {s s1 : Sys} {i : Nat} (hV : VInv s) (hs : s.copy i = some s1) : VInv s1 :=
  VInv.val_cast (fun o => o.ptr_) hV (fun _ _ => Or.inr rfl) hs

/-- Every defined operation that follows both disciplines and runs only constructors written in
the source preserves the invariant of the values. -/
theorem VInv.val_apply {s s1 : Sys} (op : Op) (hI : Inv s) (hV : VInv s) (hD : Op.disciplined s op)
    (hs : s.apply op = some s1) : VInv s1 := by
  cases op with
  | construct p k => exact VInv.val_construct hI hV hD.1 hs
  | copy i => exact hV.val_copy hs
  | copy_same i => exact absurd hD.2.2 id
  | move i => exact hV.val_move hs
  | copy_with i ptr =>
    refine VInv.val_cast (fun _ => ptr) hV (fun o ho => ?_) hs
    rcases hD.2.1 with h0 | ⟨h, e1, e2⟩
    · exact Or.inl h0
    · rw [ho] at e1
      cases e1
      exact Or.inr e2
  | static_pointer_cast i =>
    exact VInv.val_cast (fun o => static_cast o.get) hV (fun _ _ => Or.inr rfl) hs
  | dynamic_pointer_cast ok i =>
    refine VInv.val_cast (fun o => dynamic_cast ok o.get) hV (fun o _ => ?_) hs
    cases ok
    · exact Or.inl rfl
    · exact Or.inr rfl
  | reinterpret_pointer_cast i =>
    exact VInv.val_cast (fun o => reinterpret_cast o.get) hV (fun _ _ => Or.inr rfl) hs
  | const_pointer_cast i =>
    exact VInv.val_cast (fun o => const_cast o.get) hV (fun _ _ => Or.inr rfl) hs
  | swap i j => exact hV.val_swap hs
  | swap_free i j => exact hV.val_swap hs
  | copy_assign i j => exact absurd hD.2.2 id
  | move_assign i j => exact absurd hD.2.2 id
  | destroy i => exact VInv.val_destroy hI hV hs

theorem Reachable.vinv {s : Sys} (hr : Reachable Op.disciplined s) : VInv s := by
  induction hr with
  | init => exact VInv.val_empty
  | step op hr0 hd hs ih => exact ih.val_apply op (hr0.inv (fun _ _ h => h.2.2)) hd hs

theorem dangling_state_reachable : Reachable Op.fresh dangling_state :=
  Reachable.step (.destroy 1)
    (Reachable.step (.copy_with 0 2)
      (Reachable.step (.construct 2 12)
        (Reachable.step (.construct 1 11) Reachable.init (fun _ => rfl) rfl)
        (fun _ => rfl) rfl)
      trivial rfl)
    trivial rfl

/-- The claim C10 fails on the code when the constructor with a replacement address is given the
address of a value that another handle owns through its own counter: after `x0(p1)`, `x1(p2)`,
`x2(x0, p2)` (all defined, `p1` and `p2` fresh), destroying `x1` releases the value at `p2`,
and the live handle `x2` still holds `p2`. -/
theorem no_dangling_counterexample :
    Reachable Op.fresh dangling_state ∧ dangling_state.handle 2 = some ⟨2, some 11⟩ ∧
    dangling_state.heap.alive 2 = false ∧ dangling_state.heap.released = [2] ∧
    ¬ (∀ s, Reachable Op.fresh s → ∀ i h, s.handle i = some h → h.ptr_ ≠ 0 →
        s.heap.alive h.ptr_ = true) :=
  ⟨dangling_state_reachable, rfl, rfl, rfl,
    fun hall => absurd (hall dangling_state dangling_state_reachable 2 ⟨2, some 11⟩ rfl
      (by decide)) (by decide)⟩

/-- C10 as amended: in every state reachable from the empty system by defined operations that run
only constructors written in the source (no same-type copy construction and no assignment,
which run the implicitly declared copy constructor), with construction from a raw address
applied only to fresh addresses and the constructor with a replacement address applied only to
a converted address of its source (the source's own address or null, as the four casts do),
every live handle with a non-null `ptr_` references a live `shared_count` whose count is at
least 1, and the value at `ptr_` is alive; and every live `shared_count` has a count of at
least 1. -/
theorem no_dangling_owner (s : Sys) (hr : Reachable Op.disciplined s) :
    (∀ i h, s.handle i = some h → h.ptr_ ≠ 0 →
      (∃ k c, h.shared_count_ = some k ∧ s.heap.counts k = some c ∧ 1 ≤ c.get_count) ∧
      s.heap.alive h.ptr_ = true) ∧
    ∀ k c, s.heap.counts k = some c → 1 ≤ c.get_count := by
  have hI := hr.inv (fun _ _ h => h.2.2)
  have hV := hr.vinv
  refine ⟨fun i h hi hp => ⟨?_, hV.val_alive h (Sys.handle_mem hi) hp⟩, hI.pos⟩
  obtain ⟨k, c, e1, e2⟩ := hI.live h (Sys.handle_mem hi) hp
  exact ⟨k, c, e1, e2, hI.pos k c e2⟩

theorem two_owners_disciplined : Reachable Op.disciplined two_owners :=
  Reachable.step (.copy 0)
    (Reachable.step (.construct 1 11) Reachable.init ⟨fun _ => rfl, trivial, trivial⟩ rfl)
    ⟨trivial, trivial, trivial⟩ rfl

theorem no_dangling_owner_witness :
    Reachable Op.disciplined two_owners ∧
    ((∀ i h, two_owners.handle i = some h → h.ptr_ ≠ 0 →
      (∃ k c, h.shared_count_ = some k ∧ two_owners.heap.counts k = some c ∧
        1 ≤ c.get_count) ∧
      two_owners.heap.alive h.ptr_ = true) ∧
    ∀ k c, two_owners.heap.counts k = some c → 1 ≤ c.get_count) :=
  ⟨two_owners_disciplined, no_dangling_owner two_owners two_owners_disciplined⟩

/-! ## Construction from a raw address, the counter, empty handles -/

/-- C13 fails as stated: the count is a `long`. On the counter with count `LONG_MAX`, which is
a value of the member, `add_count()` does not make the count `c + 1` (that number is no `long`:
the increment overflows, the error branch); likewise `reduce_count()` on the counter with count
`LONG_MIN`. -/
theorem shared_count_overflow_counterexample :
    shared_count.in_range ⟨LONG_MAX⟩ ∧ shared_count.add_count_long ⟨LONG_MAX⟩ = none ∧
    ¬ shared_count.in_range (shared_count.add_count ⟨LONG_MAX⟩) ∧
    shared_count.in_range ⟨LONG_MIN⟩ ∧ shared_count.reduce_count_long ⟨LONG_MIN⟩ = none ∧
    ¬ shared_count.in_range (shared_count.reduce_count ⟨LONG_MIN⟩).2 := by
  refine ⟨?_, ?_, ?_, ?_, ?_, ?_⟩ <;>
    simp [shared_count.in_range, shared_count.add_count_long, shared_count.reduce_count_long,
      shared_count.add_count, shared_count.reduce_count, LONG_MAX, LONG_MIN]

/-- C13 as amended: a newly constructed `shared_count` has `get_count() = 1`; for a counter
whose count `c` is a `long`: if `c < LONG_MAX`, `add_count()` is defined and makes the count
`c + 1`; if `c > LONG_MIN`, `reduce_count()` is defined, makes the count `c - 1` and returns
that value, which a following `get_count()` returns too; both results are again a `long`; and
`get_count()` returns the member `count_` (the counter itself is not changed by it). -/
theorem shared_count_contract (c : shared_count) (hc : c.in_range) :
    shared_count.ctor.get_count = 1 ∧ shared_count.ctor.in_range ∧
    (c.get_count < LONG_MAX →
      ∃ c1, c.add_count_long = some c1 ∧ c1.get_count = c.get_count + 1 ∧ c1.in_range) ∧
    (LONG_MIN < c.get_count →
      ∃ r c1, c.reduce_count_long = some (r, c1) ∧ c1.get_count = c.get_count - 1 ∧
        r = c.get_count - 1 ∧ r = c1.get_count ∧ c1.in_range) ∧
    c.get_count = c.count_ := by
  obtain ⟨n⟩ := c
  have h1 : LONG_MIN ≤ n := hc.1
  have h2 : n ≤ LONG_MAX := hc.2
  refine ⟨rfl, ?_, fun h => ?_, fun h => ?_, rfl⟩
  · simp [shared_count.in_range, shared_count.ctor, LONG_MAX, LONG_MIN]
  · have h3 : n < LONG_MAX := h
    refine ⟨⟨n + 1⟩, ?_, rfl, ?_⟩
    · simp [shared_count.add_count_long, shared_count.add_count, h3]
    · show LONG_MIN ≤ n + 1 ∧ n + 1 ≤ LONG_MAX
      omega
  · have h3 : LONG_MIN < n := h
    refine ⟨n - 1, ⟨n - 1⟩, ?_, rfl, rfl, rfl, ?_⟩
    · simp [shared_count.reduce_count_long, shared_count.reduce_count, h3]
    · show LONG_MIN ≤ n - 1 ∧ n - 1 ≤ LONG_MAX
      omega

theorem shared_count_contract_witness :
    shared_count.in_range ⟨2⟩ ∧
    (∃ c1, shared_count.add_count_long ⟨2⟩ = some c1 ∧ c1.get_count = 3) ∧
    (∃ r c1, shared_count.reduce_count_long ⟨2⟩ = some (r, c1) ∧ c1.get_count = 1 ∧ r = 1) := by
  have hr : shared_count.in_range ⟨2⟩ := by
    simp [shared_count.in_range, LONG_MAX, LONG_MIN]
  obtain ⟨_, _, ha, hb, _⟩ := shared_count_contract ⟨2⟩ hr
  obtain ⟨c1, e1, e2, _⟩ := ha (by simp [shared_count.get_count, LONG_MAX])
  obtain ⟨r, c2, e3, e4, e5, _⟩ := hb (by simp [shared_count.get_count, LONG_MIN])
  exact ⟨hr, ⟨c1, e1, e2⟩, ⟨r, c2, e3, e4, e5⟩⟩

theorem construct_eq_null (s : Sys) (k : Nat) :
    s.construct 0 k = some ⟨s.handles ++ [some ⟨0, none⟩], s.heap⟩ := by
  simp [Sys.construct, smart_ptr.ctor]

theorem construct_eq_nonnull (s : Sys) {p k : Nat} (hp : p ≠ 0) (hk0 : k ≠ 0)
    (hk : s.heap.counts k = none) :
    s.construct p k = some ⟨s.handles ++ [some ⟨p, some k⟩],
      { s.heap.new_value p with
        counts := Function.update s.heap.counts k (some shared_count.ctor) }⟩ := by
  have hk1 : (s.heap.new_value p).counts k = none := hk
  simp [Sys.construct, smart_ptr.ctor, hp, Heap.new_shared_count, hk0, hk1]
  rfl

/-- C12: for every address `p`, `smart_ptr(p)` (the allocator answering a free non-null address
`k` if it is asked) is defined and yields a handle with `get() = p`, the existing handles
unchanged; if `p` is non-null a `shared_count` with count 1 is allocated at `k`, which held no
counter before, so `use_count() = 1`, and no other counter is changed; if `p` is null (as in
default construction) the heap is unchanged, the handle references no counter and
`use_count() = 0`. -/
theorem construct_from_raw (s : Sys) (p k : Nat)
    (hk : p ≠ 0 → k ≠ 0 ∧ s.heap.counts k = none) :
    ∃ s1 h, s.construct p k = some s1 ∧ s1.handle s.handles.length = some h ∧
      h.get = p ∧ s1.get s.handles.length = some p ∧
      (∀ j h0, s.handle j = some h0 → s1.handle j = some h0) ∧
      (p ≠ 0 → h.shared_count_ = some k ∧ s1.heap.counts k = some ⟨1⟩ ∧
        s1.use_count s.handles.length = some 1 ∧
        (∀ k1, k1 ≠ k → s1.heap.counts k1 = s.heap.counts k1) ∧
        s1.heap.released = s.heap.released ∧ s1.heap.freed = s.heap.freed) ∧
      (p = 0 → h.shared_count_ = none ∧ s1.heap = s.heap ∧
        s1.use_count s.handles.length = some 0) := by
  obtain ⟨l, m⟩ := s
  by_cases hp : p = 0
  · subst hp
    have hH : (⟨l ++ [some (⟨0, none⟩ : smart_ptr)], m⟩ : Sys).handle l.length
        = some ⟨0, none⟩ := handle_push_len _ _ _
    refine ⟨_, ⟨0, none⟩, construct_eq_null _ k, hH, rfl, ?_, fun j h0 hj => handle_push_old _ hj,
      fun h => absurd rfl h, fun _ => ⟨rfl, rfl, ?_⟩⟩
    · rw [sys_get hH]
    · rw [sys_use_count hH]
      rfl
  · obtain ⟨hk0, hkn⟩ := hk hp
    have hH : (⟨l ++ [some (⟨p, some k⟩ : smart_ptr)], { m.new_value p with
        counts := Function.update m.counts k (some shared_count.ctor) }⟩ : Sys).handle l.length
        = some ⟨p, some k⟩ := handle_push_len _ _ _
    refine ⟨_, ⟨p, some k⟩, construct_eq_nonnull ⟨l, m⟩ hp hk0 hkn, hH, rfl, ?_,
      fun j h0 hj => handle_push_old _ hj, fun _ => ⟨rfl, ?_, ?_, ?_, rfl, rfl⟩,
      fun h => absurd h hp⟩
    · rw [sys_get hH]
    · simp [shared_count.ctor]
    · rw [sys_use_count hH]
      rw [use_count_nonnull (h := ⟨p, some k⟩) (k := k) (c := shared_count.ctor) hp rfl
        (by simp)]
      rfl
    · intro k1 hk1
      simp [Function.update_noteq hk1, Heap.new_value]

theorem construct_from_raw_witness :
    ((1 : Nat) ≠ 0 → (11 : Nat) ≠ 0 ∧ Sys.empty.heap.counts 11 = none) ∧
    ∃ s1 h, Sys.empty.construct 1 11 = some s1 ∧ s1.handle Sys.empty.handles.length = some h ∧
      h.get = 1 ∧ s1.get Sys.empty.handles.length = some 1 ∧
      (∀ j h0, Sys.empty.handle j = some h0 → s1.handle j = some h0) ∧
      ((1 : Nat) ≠ 0 → h.shared_count_ = some 11 ∧ s1.heap.counts 11 = some ⟨1⟩ ∧
        s1.use_count Sys.empty.handles.length = some 1 ∧
        (∀ k1, k1 ≠ 11 → s1.heap.counts k1 = Sys.empty.heap.counts k1) ∧
        s1.heap.released = Sys.empty.heap.released ∧ s1.heap.freed = Sys.empty.heap.freed) ∧
      ((1 : Nat) = 0 → h.shared_count_ = none ∧ s1.heap = Sys.empty.heap ∧
        s1.use_count Sys.empty.handles.length = some 0) :=
  ⟨fun _ => ⟨by decide, rfl⟩, construct_from_raw Sys.empty 1 11 (fun _ => ⟨by decide, rfl⟩)⟩

/-- C14: for every live handle whose `ptr_` is null, whatever its `shared_count_` holds (nothing,
or a stale address, also of a deleted counter), the destructor is defined and leaves the heap as
it was: no count changes, no value and no counter is released. The handles named by the claim
have a null `ptr_`: the one constructed from a null address, the source of a move construction
(which keeps its `shared_count_`), and the result of a failed `dynamic_pointer_cast`. -/
theorem destroy_empty_is_noop (s : Sys) (i : Nat) (h : smart_ptr)
    (hi : s.handle i = some h) (h0 : h.ptr_ = 0) :
    smart_ptr.dtor s.heap h = some s.heap ∧
    (∃ s1, s.destroy i = some s1 ∧ s1.heap = s.heap ∧
      (∀ k, s1.heap.counts k = s.heap.counts k) ∧ s1.heap.alive = s.heap.alive ∧
      s1.heap.released = s.heap.released ∧ s1.heap.freed = s.heap.freed) ∧
    (∀ m k, smart_ptr.ctor m 0 k = some (⟨0, none⟩, m)) ∧
    (∀ o : smart_ptr, (smart_ptr.ctor_move o).2.ptr_ = 0 ∧
      (smart_ptr.ctor_move o).2.shared_count_ = o.shared_count_) ∧
    (∀ m o, dynamic_pointer_cast false m o = some (⟨0, none⟩, m)) := by
  refine ⟨dtor_null h0, ⟨_, destroy_eq hi (dtor_null h0), rfl, fun _ => rfl, rfl, rfl, rfl⟩,
    fun _ _ => rfl, fun o => ?_, fun _ _ => rfl⟩
  by_cases hp : o.ptr_ = 0 <;> simp [smart_ptr.ctor_move, hp]

theorem destroy_empty_is_noop_witness :
    moved_from.handle 0 = some ⟨0, some 11⟩ ∧ (⟨0, some 11⟩ : smart_ptr).ptr_ = 0 ∧
    (smart_ptr.dtor moved_from.heap ⟨0, some 11⟩ = some moved_from.heap ∧
    (∃ s1, moved_from.destroy 0 = some s1 ∧ s1.heap = moved_from.heap ∧
      (∀ k, s1.heap.counts k = moved_from.heap.counts k) ∧
      s1.heap.alive = moved_from.heap.alive ∧
      s1.heap.released = moved_from.heap.released ∧ s1.heap.freed = moved_from.heap.freed) ∧
    (∀ m k, smart_ptr.ctor m 0 k = some (⟨0, none⟩, m)) ∧
    (∀ o : smart_ptr, (smart_ptr.ctor_move o).2.ptr_ = 0 ∧
      (smart_ptr.ctor_move o).2.shared_count_ = o.shared_count_) ∧
    (∀ m o, dynamic_pointer_cast false m o = some (⟨0, none⟩, m))) :=
  ⟨rfl, rfl, destroy_empty_is_noop moved_from 0 ⟨0, some 11⟩ rfl rfl⟩

/-! ## Two constructions from one address -/

theorem construct_nonnull_spec (s : Sys) {p k : Nat} (hp : p ≠ 0) (hk0 : k ≠ 0)
    (hk : s.heap.counts k = none) :
    ∃ m1, s.construct p k = some ⟨s.handles ++ [some ⟨p, some k⟩], m1⟩ ∧
      m1.counts k = some ⟨1⟩ ∧ (∀ k1, k1 ≠ k → m1.counts k1 = s.heap.counts k1) ∧
      m1.alive p = true ∧ m1.released = s.heap.released ∧ m1.freed = s.heap.freed := by
  refine ⟨_, construct_eq_nonnull s hp hk0 hk, ?_, fun k1 hk1 => ?_, ?_, rfl, rfl⟩
  · simp [shared_count.ctor]
  · simp [Function.update_noteq hk1, Heap.new_value]
  · simp [Heap.new_value]

theorem destroy_last_spec {s : Sys} {i k : Nat} {h : smart_ptr}
    (hi : s.handle i = some h) (hp : h.ptr_ ≠ 0) (hs : h.shared_count_ = some k)
    (hc : s.heap.counts k = some ⟨1⟩) :
    ∃ m1, s.destroy i = some ⟨s.handles.set i none, m1⟩ ∧
      m1.counts k = none ∧ (∀ k1, k1 ≠ k → m1.counts k1 = s.heap.counts k1) ∧
      m1.alive h.ptr_ = false ∧
      m1.released = s.heap.released ++ [h.ptr_] ∧ m1.freed = s.heap.freed ++ [k] := by
  refine ⟨_, destroy_eq hi (dtor_last hp hs hc rfl), ?_, fun k1 hk1 => ?_, ?_, rfl, rfl⟩
  · simp [Heap.delete_count]
  · simp [Heap.delete_count, Heap.delete_value, Heap.store, Function.update_noteq hk1]
  · simp [Heap.delete_count, Heap.delete_value]

/-- C17: `smart_ptr(T*)` does not detect an address that is already owned. For a non-null `p`,
constructing two handles from `p` (the allocator answering the free addresses `k1` and `k2`,
which are distinct) is defined and gives two counters, each with count 1, so both handles have
`use_count() = 1`; the second construction is not from a fresh address (`p` is alive); and
destroying the first and then the second handle is defined and runs `delete ptr_` on `p` twice
(the release log grows by `p, p`) and deletes both counters. -/
theorem double_construct_double_release (s : Sys) (p k1 k2 : Nat) (hp : p ≠ 0)
    (h1 : k1 ≠ 0 ∧ s.heap.counts k1 = none) (h2 : k2 ≠ 0 ∧ s.heap.counts k2 = none)
    (h12 : k1 ≠ k2) :
    ∃ s1 s2, s.apply (.construct p k1) = some s1 ∧ s1.apply (.construct p k2) = some s2 ∧
      ¬ Op.fresh s1 (.construct p k2) ∧
      s2.handle s.handles.length = some ⟨p, some k1⟩ ∧
      s2.handle (s.handles.length + 1) = some ⟨p, some k2⟩ ∧
      s2.heap.counts k1 = some ⟨1⟩ ∧ s2.heap.counts k2 = some ⟨1⟩ ∧
      s2.use_count s.handles.length = some 1 ∧ s2.use_count (s.handles.length + 1) = some 1 ∧
      ∃ s4, s2.run [.destroy s.handles.length, .destroy (s.handles.length + 1)] = some s4 ∧
        s4.heap.released = s.heap.released ++ [p, p] ∧
        s4.heap.freed = s.heap.freed ++ [k1, k2] ∧
        s4.heap.released.count p = s.heap.released.count p + 2 := by
  obtain ⟨l, m⟩ := s
  obtain ⟨m1, e1, c11, c1o, a1, r1, f1⟩ := construct_nonnull_spec ⟨l, m⟩ hp h1.1 h1.2
  have hk2 : m1.counts k2 = none := by
    rw [c1o k2 (Ne.symm h12)]
    exact h2.2
  obtain ⟨m2, e2, c22, c2o, _, r2, f2⟩ :=
    construct_nonnull_spec ⟨l ++ [some ⟨p, some k1⟩], m1⟩ hp h2.1 hk2
  simp only at e1 e2 c2o r2 f2 r1 f1
  have hlen : (l ++ [some (⟨p, some k1⟩ : smart_ptr)]).length = l.length + 1 := by simp
  have hB : (⟨l ++ [some (⟨p, some k1⟩ : smart_ptr)] ++ [some ⟨p, some k2⟩], m2⟩ : Sys).handle
      (l.length + 1) = some ⟨p, some k2⟩ := by
    have := handle_push_len (l ++ [some (⟨p, some k1⟩ : smart_ptr)]) m2 (some ⟨p, some k2⟩)
    rwa [hlen] at this
  have hA0 : (⟨l ++ [some (⟨p, some k1⟩ : smart_ptr)], m⟩ : Sys).handle l.length
      = some ⟨p, some k1⟩ := handle_push_len _ _ _
  have hA : (⟨l ++ [some (⟨p, some k1⟩ : smart_ptr)] ++ [some ⟨p, some k2⟩], m2⟩ : Sys).handle
      l.length = some ⟨p, some k1⟩ := handle_push_old _ hA0
  have c21 : m2.counts k1 = some ⟨1⟩ := by
    rw [c2o k1 h12]
    exact c11
  obtain ⟨m3, d1, _, c3o, _, r3, f3⟩ := destroy_last_spec hA hp rfl c21
  simp only at d1 c3o r3 f3
  have hB3 : (⟨(l ++ [some (⟨p, some k1⟩ : smart_ptr)]
      ++ [some (⟨p, some k2⟩ : smart_ptr)]).set l.length none, m3⟩ : Sys).handle (l.length + 1)
      = some ⟨p, some k2⟩ := by
    rw [handle_set_ne (m := m2) _ (by omega)]
    exact hB
  have c32 : m3.counts k2 = some ⟨1⟩ := by
    rw [c3o k2 (Ne.symm h12)]
    exact c22
  obtain ⟨m4, d2, _, _, _, r4, f4⟩ := destroy_last_spec hB3 hp rfl c32
  simp only at d2 r4 f4
  have hrun : Sys.run ⟨l ++ [some (⟨p, some k1⟩ : smart_ptr)]
      ++ [some (⟨p, some k2⟩ : smart_ptr)], m2⟩ [.destroy l.length, .destroy (l.length + 1)]
      = some ⟨((l ++ [some (⟨p, some k1⟩ : smart_ptr)]
      ++ [some (⟨p, some k2⟩ : smart_ptr)]).set l.length none).set (l.length + 1) none, m4⟩ := by
    rw [run_cons]
    show (Sys.destroy _ _).bind _ = _
    rw [d1, Option.some_bind, run_cons]
    show (Sys.destroy _ _).bind _ = _
    rw [d2, Option.some_bind]
    rfl
  refine ⟨_, _, e1, e2, ?_, hA, hB, c21, c22, ?_, ?_, _, hrun, ?_, ?_, ?_⟩
  · intro hf
    have := hf hp
    simp only at this
    rw [a1] at this
    cases this
  · rw [sys_use_count hA]
    exact use_count_nonnull (h := ⟨p, some k1⟩) hp rfl c21
  · rw [sys_use_count hB]
    exact use_count_nonnull (h := ⟨p, some k2⟩) hp rfl c22
  · simp only [r4, r3, r2, r1, List.append_assoc, List.singleton_append]
  · simp only [f4, f3, f2, f1, List.append_assoc, List.singleton_append]
  · simp only [r4, r3, r2, r1, List.count_append, List.count_singleton_self]

theorem double_construct_double_release_witness :
    (1 : Nat) ≠ 0 ∧ ((11 : Nat) ≠ 0 ∧ Sys.empty.heap.counts 11 = none) ∧
    ((12 : Nat) ≠ 0 ∧ Sys.empty.heap.counts 12 = none) ∧ (11 : Nat) ≠ 12 ∧
    ∃ s1 s2, Sys.empty.apply (.construct 1 11) = some s1 ∧
      s1.apply (.construct 1 12) = some s2 ∧
      ¬ Op.fresh s1 (.construct 1 12) ∧
      s2.handle Sys.empty.handles.length = some ⟨1, some 11⟩ ∧
      s2.handle (Sys.empty.handles.length + 1) = some ⟨1, some 12⟩ ∧
      s2.heap.counts 11 = some ⟨1⟩ ∧ s2.heap.counts 12 = some ⟨1⟩ ∧
      s2.use_count Sys.empty.handles.length = some 1 ∧
      s2.use_count (Sys.empty.handles.length + 1) = some 1 ∧
      ∃ s4, s2.run [.destroy Sys.empty.handles.length,
          .destroy (Sys.empty.handles.length + 1)] = some s4 ∧
        s4.heap.released = Sys.empty.heap.released ++ [1, 1] ∧
        s4.heap.freed = Sys.empty.heap.freed ++ [11, 12] ∧
        s4.heap.released.count 1 = Sys.empty.heap.released.count 1 + 2 :=
  ⟨by decide, ⟨by decide, rfl⟩, ⟨by decide, rfl⟩, by decide,
    double_construct_double_release Sys.empty 1 11 12 (by decide) ⟨by decide, rfl⟩
      ⟨by decide, rfl⟩ (by decide)⟩

/-! ## Observers and self-assignment -/

/-- The observers where only constructors written in the source run: for every live handle `h`
in a state reachable without same-type copy construction and without assignment,
`use_count()` is defined, and the conversion to `bool` is true exactly if `get()` is non-null,
exactly if `use_count() >= 1`; `use_count() = 0` exactly if `get()` is null. -/
theorem observers_agree_written (s : Sys) (hr : Reachable Op.fresh_written s) (i : Nat)
    (h : smart_ptr) (hi : s.handle i = some h) :
    ∃ n, h.use_count s.heap = some n ∧ s.use_count i = some n ∧ s.get i = some h.get ∧
      (h.operator_bool = true ↔ h.get ≠ 0) ∧ (h.get ≠ 0 ↔ 1 ≤ n) ∧
      (h.operator_bool = true ↔ 1 ≤ n) ∧ (n = 0 ↔ h.get = 0) := by
  have hI := hr.inv (fun _ _ h => h.2)
  have hb : h.operator_bool = true ↔ h.get ≠ 0 := by
    simp [smart_ptr.operator_bool, smart_ptr.get]
  by_cases hp : h.ptr_ = 0
  · have hu := use_count_null (m := s.heap) hp
    refine ⟨0, hu, by rw [sys_use_count hi, hu], sys_get hi, hb, ?_, ?_, ?_⟩
    · simp [smart_ptr.get, hp]
    · rw [hb]
      simp [smart_ptr.get, hp]
    · simp [smart_ptr.get, hp]
  · obtain ⟨k, c, e1, e2⟩ := hI.live h (Sys.handle_mem hi) hp
    have hpos := hI.pos k c e2
    have hu := use_count_nonnull hp e1 e2
    refine ⟨c.count_, hu, by rw [sys_use_count hi, hu], sys_get hi, hb, ?_, ?_, ?_⟩
    · simp [smart_ptr.get, hp, hpos]
    · rw [hb]
      simp [smart_ptr.get, hp, hpos]
    · simp only [smart_ptr.get, hp, iff_false]
      omega

theorem self_assigned_reachable : Reachable Op.fresh self_assigned :=
  Reachable.step (.copy_assign 0 0)
    (Reachable.step (.construct 1 11) Reachable.init (fun _ => rfl) rfl) trivial rfl

/-- C16 fails on the code. For the sole owner `a` of the value at 1 (`use_count() = 1`, a
reachable state), the self-assignment `a = a` is defined; its by-value parameter is built by the
implicitly declared copy constructor, without `add_count`, so the destructor of the parameter
takes the count from 1 to 0 and deletes the value and the counter: afterwards `a` still holds
the address 1 and the address of the deleted counter, `use_count()` reads a deleted counter, and
so does the destructor of `a`. -/
theorem self_assign_releases_sole_owner :
    Reachable Op.fresh one_owner ∧ one_owner.handle 0 = some ⟨1, some 11⟩ ∧
    one_owner.use_count 0 = some 1 ∧ one_owner.heap.alive 1 = true ∧
    one_owner.heap.released = [] ∧
    ∃ s1, one_owner.copy_assign 0 0 = some s1 ∧ s1 = self_assigned ∧
      s1.handle 0 = some ⟨1, some 11⟩ ∧ s1.get 0 = some 1 ∧
      s1.heap.counts 11 = none ∧ s1.heap.alive 1 = false ∧
      s1.heap.released = [1] ∧ s1.heap.freed = [11] ∧
      s1.use_count 0 = none ∧ s1.destroy 0 = none :=
  ⟨one_owner_reachable, rfl, rfl, rfl, rfl, _, rfl, rfl, rfl, rfl, rfl, rfl, rfl, rfl, rfl, rfl⟩

/-- C15 fails on the code. The state after `smart_ptr<T> a(p); a = a;` is reachable, and its
live handle `a` has `bool(a)` true and `get()` non-null, but its counter has been deleted:
`use_count()` reads a deleted counter (no value, in particular none that is `>= 1`). -/
theorem observers_disagree_after_self_assign :
    Reachable Op.fresh self_assigned ∧ self_assigned.handle 0 = some ⟨1, some 11⟩ ∧
    (⟨1, some 11⟩ : smart_ptr).operator_bool = true ∧ (⟨1, some 11⟩ : smart_ptr).get ≠ 0 ∧
    self_assigned.heap.counts 11 = none ∧
    (⟨1, some 11⟩ : smart_ptr).use_count self_assigned.heap = none ∧
    self_assigned.use_count 0 = none ∧
    ¬ (∃ n, self_assigned.use_count 0 = some n ∧ 1 ≤ n) := by
  refine ⟨self_assigned_reachable, rfl, rfl, by decide, rfl, rfl, rfl, ?_⟩
  rintro ⟨n, h, _⟩
  have e : self_assigned.use_count 0 = none := rfl
  rw [e] at h
  cases h

/-! ## The access to the counter in the constructor with a replacement address -/

theorem store_store (m : Heap) (k : Nat) (c1 c2 : shared_count) :
    (m.store k c1).store k c2 = m.store k c2 := by
  simp [Heap.store, Function.update_idem]

theorem destroy_more_eq {s : Sys} {i k : Nat} {h : smart_ptr} {c : shared_count}
    (hi : s.handle i = some h) (hp : h.ptr_ ≠ 0) (hs : h.shared_count_ = some k)
    (hc : s.heap.counts k = some c) (h1 : c.count_ ≠ 1) :
    s.destroy i = some ⟨s.handles.set i none, s.heap.store k ⟨c.count_ - 1⟩⟩ :=
  destroy_eq hi (dtor_more hp hs hc h1)

theorem cast_step {s : Sys} {i k : Nat} {h : smart_ptr} {c : shared_count}
    (f : Heap → smart_ptr → Option (smart_ptr × Heap))
    (hf : f s.heap h = smart_ptr.ctor_alias s.heap h h.ptr_)
    (hi : s.handle i = some h) (hp : h.ptr_ ≠ 0) (hs : h.shared_count_ = some k)
    (hc : s.heap.counts k = some c) :
    s.cast f i = some ⟨s.handles ++ [some ⟨h.ptr_, some k⟩], s.heap.store k c.add_count⟩ :=
  cast_eq f hi (hf.trans (ctor_alias_nonnull hp hs hc))

/-- C11: for a non-empty owner `A` (slot `i`) with address `p` and `use_count() = c` in a
reachable state, `static_pointer_cast` of `A` gives `B` and `dynamic_pointer_cast` of `B` with a
successful check gives `A'`: both are defined, `A'.get() = p`, the three handles reference the
counter of `A` and each has `use_count() = c + 2`; destroying `B` and `A'`, in either order, is
defined and gives back the heap of before the casts, so `A.use_count() = c` again and nothing
has been released. -/
theorem cast_round_trip (s : Sys) (hr : Reachable Op.fresh s) (i : Nat) (A : smart_ptr)
    (c : Int) (hA : s.handle i = some A) (hne : A.ptr_ ≠ 0) (hc : s.use_count i = some c) :
    ∃ s1 s2 B A1, s.apply (.static_pointer_cast i) = some s1 ∧
      s1.apply (.dynamic_pointer_cast true s.handles.length) = some s2 ∧
      s2.handle i = some A ∧ s2.handle s.handles.length = some B ∧
      s2.handle (s.handles.length + 1) = some A1 ∧
      A1.get = A.get ∧ B.get = A.get ∧
      B.shared_count_ = A.shared_count_ ∧ A1.shared_count_ = A.shared_count_ ∧
      s2.use_count i = some (c + 2) ∧ s2.use_count s.handles.length = some (c + 2) ∧
      s2.use_count (s.handles.length + 1) = some (c + 2) ∧
      ∀ order ∈ [[s.handles.length, s.handles.length + 1],
          [s.handles.length + 1, s.handles.length]],
        ∃ s4, s2.run (order.map Op.destroy) = some s4 ∧ s4.handle i = some A ∧
          s4.use_count i = some c ∧ s4.heap = s.heap ∧
          s4.heap.released = s.heap.released ∧ s4.heap.alive = s.heap.alive := by
  have hI := hr.positive
  obtain ⟨l, m⟩ := s
  have hil : i < l.length := Sys.handle_lt hA
  rw [sys_use_count hA] at hc
  obtain ⟨k, cc, e1, e2, e3⟩ := use_count_cases hc hne
  have hpos : 1 ≤ cc.count_ := hI k cc e2
  -- the two casts
  have hs1 : Sys.apply ⟨l, m⟩ (.static_pointer_cast i)
      = some ⟨l ++ [some ⟨A.ptr_, some k⟩], m.store k cc.add_count⟩ :=
    cast_step static_pointer_cast rfl hA hne e1 e2
  have hB1 : (⟨l ++ [some (⟨A.ptr_, some k⟩ : smart_ptr)], m.store k cc.add_count⟩
      : Sys).handle l.length = some ⟨A.ptr_, some k⟩ := handle_push_len _ _ _
  have hs2 : Sys.apply ⟨l ++ [some (⟨A.ptr_, some k⟩ : smart_ptr)], m.store k cc.add_count⟩
      (.dynamic_pointer_cast true l.length)
      = some ⟨l ++ [some (⟨A.ptr_, some k⟩ : smart_ptr)] ++ [some ⟨A.ptr_, some k⟩],
        m.store k cc.add_count.add_count⟩ := by
    have := cast_step (s := ⟨l ++ [some (⟨A.ptr_, some k⟩ : smart_ptr)],
      m.store k cc.add_count⟩) (h := ⟨A.ptr_, some k⟩) (dynamic_pointer_cast true) rfl hB1 hne
      rfl (store_counts_same m k _)
    rw [store_store] at this
    exact this
  have hlen : (l ++ [some (⟨A.ptr_, some k⟩ : smart_ptr)]).length = l.length + 1 := by simp
  -- the three handles in the state after the casts
  have hA1 : (⟨l ++ [some (⟨A.ptr_, some k⟩ : smart_ptr)], m⟩ : Sys).handle i = some A :=
    handle_push_old _ hA
  have hA2 : (⟨l ++ [some (⟨A.ptr_, some k⟩ : smart_ptr)] ++ [some ⟨A.ptr_, some k⟩],
      m.store k cc.add_count.add_count⟩ : Sys).handle i = some A :=
    handle_push_old _ hA1
  have hB2 : (⟨l ++ [some (⟨A.ptr_, some k⟩ : smart_ptr)] ++ [some ⟨A.ptr_, some k⟩],
      m.store k cc.add_count.add_count⟩ : Sys).handle l.length = some ⟨A.ptr_, some k⟩ :=
    handle_push_old _ hB1
  have hC2 : (⟨l ++ [some (⟨A.ptr_, some k⟩ : smart_ptr)] ++ [some ⟨A.ptr_, some k⟩],
      m.store k cc.add_count.add_count⟩ : Sys).handle (l.length + 1)
      = some ⟨A.ptr_, some k⟩ := by
    have := handle_push_len (l ++ [some (⟨A.ptr_, some k⟩ : smart_ptr)])
      (m.store k cc.add_count.add_count) (some ⟨A.ptr_, some k⟩)
    rwa [hlen] at this
  have hcnt2 : (m.store k cc.add_count.add_count).counts k = some ⟨c + 2⟩ := by
    rw [store_counts_same]
    simp only [shared_count.add_count, e3]
    congr 2
    omega
  have huse : ∀ h : smart_ptr, h.ptr_ ≠ 0 → h.shared_count_ = some k →
      h.use_count (m.store k cc.add_count.add_count) = some (c + 2) := by
    intro h hp hs
    rw [use_count_nonnull hp hs hcnt2]
  -- the two destructors, for the slots `x` and `y` in either order
  have hdestroy : ∀ x y, x ≠ y → l.length ≤ x → l.length ≤ y →
      (⟨l ++ [some (⟨A.ptr_, some k⟩ : smart_ptr)] ++ [some ⟨A.ptr_, some k⟩],
        m.store k cc.add_count.add_count⟩ : Sys).handle x = some ⟨A.ptr_, some k⟩ →
      (⟨l ++ [some (⟨A.ptr_, some k⟩ : smart_ptr)] ++ [some ⟨A.ptr_, some k⟩],
        m.store k cc.add_count.add_count⟩ : Sys).handle y = some ⟨A.ptr_, some k⟩ →
      ∃ s4, Sys.run ⟨l ++ [some (⟨A.ptr_, some k⟩ : smart_ptr)] ++ [some ⟨A.ptr_, some k⟩],
          m.store k cc.add_count.add_count⟩ [Op.destroy x, Op.destroy y] = some s4 ∧
        s4.handle i = some A ∧ s4.use_count i = some c ∧ s4.heap = m ∧
        s4.heap.released = m.released ∧ s4.heap.alive = m.alive := by
    intro x y hxy hx hy hhx hhy
    have d1 := destroy_more_eq hhx hne rfl (store_counts_same m k _)
      (by simp only [shared_count.add_count]; omega)
    simp only [store_store] at d1
    have hy3 : (⟨(l ++ [some (⟨A.ptr_, some k⟩ : smart_ptr)]
        ++ [some (⟨A.ptr_, some k⟩ : smart_ptr)]).set x none,
        m.store k ⟨cc.add_count.add_count.count_ - 1⟩⟩ : Sys).handle y
        = some ⟨A.ptr_, some k⟩ := by
      rw [handle_set_ne (m := m.store k cc.add_count.add_count) _ hxy]
      exact hhy
    have d2 := destroy_more_eq hy3 hne rfl (store_counts_same m k _)
      (by simp only [shared_count.add_count]; omega)
    have hback : (⟨(⟨cc.add_count.add_count.count_ - 1⟩ : shared_count).count_ - 1⟩
        : shared_count) = cc := by
      cases cc
      simp only [shared_count.add_count, shared_count.mk.injEq]
      omega
    simp only [store_store, hback, store_store_cancel _ e2] at d2
    have hA4 : (⟨((l ++ [some (⟨A.ptr_, some k⟩ : smart_ptr)]
        ++ [some (⟨A.ptr_, some k⟩ : smart_ptr)]).set x none).set y none, m⟩ : Sys).handle i
        = some A := by
      rw [handle_set_ne (m := m) _ (by omega), handle_set_ne (m := m) _ (by omega)]
      exact handle_push_old _ hA1
    refine ⟨_, ?_, hA4, ?_, rfl, rfl, rfl⟩
    · rw [run_cons]
      show (Sys.destroy _ _).bind _ = _
      rw [d1, Option.some_bind, run_cons]
      show (Sys.destroy _ _).bind _ = _
      rw [d2, Option.some_bind]
      rfl
    · rw [sys_use_count hA4]
      exact hc
  refine ⟨_, _, ⟨A.ptr_, some k⟩, ⟨A.ptr_, some k⟩, hs1, hs2, hA2, hB2, hC2, rfl, rfl,
    e1.symm, e1.symm, ?_, ?_, ?_, ?_⟩
  · rw [sys_use_count hA2]
    exact huse A hne e1
  · rw [sys_use_count hB2]
    exact huse _ hne rfl
  · rw [sys_use_count hC2]
    exact huse _ hne rfl
  · intro order hor
    simp only [List.mem_cons, List.mem_singleton, List.not_mem_nil, or_false] at hor
    rcases hor with rfl | rfl
    · exact hdestroy l.length (l.length + 1) (by omega) (by omega) (by omega) hB2 hC2
    · exact hdestroy (l.length + 1) l.length (by omega) (by omega) (by omega) hC2 hB2

theorem cast_round_trip_witness :
    Reachable Op.fresh one_owner ∧ one_owner.handle 0 = some ⟨1, some 11⟩ ∧
    one_owner.use_count 0 = some 1 ∧
    ∃ s1 s2 B A1, one_owner.apply (.static_pointer_cast 0) = some s1 ∧
      s1.apply (.dynamic_pointer_cast true 1) = some s2 ∧
      s2.handle 0 = some ⟨1, some 11⟩ ∧ s2.handle 1 = some B ∧ s2.handle 2 = some A1 ∧
      A1.get = 1 ∧ B.get = 1 ∧ B.shared_count_ = some 11 ∧ A1.shared_count_ = some 11 ∧
      s2.use_count 0 = some (1 + 2) ∧ s2.use_count 1 = some (1 + 2) ∧
      s2.use_count 2 = some (1 + 2) ∧
      ∀ order ∈ [[1, 2], [2, 1]],
        ∃ s4, s2.run (order.map Op.destroy) = some s4 ∧ s4.handle 0 = some ⟨1, some 11⟩ ∧
          s4.use_count 0 = some 1 ∧ s4.heap = one_owner.heap ∧
          s4.heap.released = one_owner.heap.released ∧
          s4.heap.alive = one_owner.heap.alive :=
  ⟨one_owner_reachable, rfl, rfl,
    cast_round_trip one_owner one_owner_reachable 0 ⟨1, some 11⟩ 1 rfl (by decide) rfl⟩

end Cpp
